import Mathlib

/-!
Verification development for the reconciliation core of
terraform-provider-pingoneprovisioning.

Strings from the Go source are modelled as `List Char` (`Str`), with
Go-stdlib string helpers (strings.TrimSpace, strings.ToLower,
strings.Contains, strings.HasSuffix, sort.Strings) embedded as structural
Lean functions over `List Char`; full Unicode case folding and the full
unicode.IsSpace class are abstracted to their ASCII fragments.
Durations are modelled as `Int` nanoseconds, exactly as Go's
`time.Duration` (an int64 count of nanoseconds); the float64 jitter
computation `rand.Float64() * 0.25 * float64(b)` is abstracted by an
integer jitter value `j` constrained by `0 ≤ j` and `4 * j ≤ b`, the
envelope of every possible rounded outcome of that expression.
Go maps are modelled as association lists; where the Go code ranges over a
map and then sorts, the model ranges in insertion order and sorts, which
yields the same sorted output; for map iterations whose order the proved
properties do not depend on, insertion order is used.
-/

/-- Strings are embedded as lists of characters. -/
abbrev Str := List Char

/-- Coerce a Lean string literal into the embedding. -/
def str (s : String) : Str := s.data

/-- ASCII fragment of Go's unicode.ToLower as used by strings.ToLower. -/
def lowerChar (c : Char) : Char :=
  if 'A' ≤ c ∧ c ≤ 'Z' then Char.ofNat (c.toNat + 32) else c

/-- Embedding of Go strings.ToLower (ASCII fragment). -/
def goToLower (s : Str) : Str := s.map lowerChar

/-- ASCII fragment of Go's unicode.IsSpace, used by strings.TrimSpace. -/
def isSpaceChar (c : Char) : Bool :=
  c = ' ' || c = '\t' || c = '\n' || c = '\r' || c = Char.ofNat 11 || c = Char.ofNat 12

/-- Embedding of Go strings.TrimSpace: drop leading and trailing whitespace. -/
def goTrim (s : Str) : Str :=
  ((s.dropWhile isSpaceChar).reverse.dropWhile isSpaceChar).reverse

/-- Embedding of Go strings.Contains: does `sub` occur inside `s`. -/
def goContains : Str → Str → Bool
  | [], sub => sub.isEmpty
  | c :: cs, sub => sub.isPrefixOf (c :: cs) || goContains cs sub

/-- Embedding of Go strings.HasSuffix. -/
def goEndsWith (s suffixArg : Str) : Bool := suffixArg.isSuffixOf s

/-- Lexicographic strict order on embedded strings, as sort.Strings orders them. -/
def lexLt : Str → Str → Bool
  | [], [] => false
  | [], _ :: _ => true
  | _ :: _, [] => false
  | c :: cs, d :: ds => if c < d then true else if d < c then false else lexLt cs ds

/-- Insert a string into an ascending list, keeping it ascending. -/
def insertSorted (x : Str) : List Str → List Str
  | [] => [x]
  | y :: ys => if lexLt y x then y :: insertSorted x ys else x :: y :: ys

/-- Embedding of Go sort.Strings (as a pure ascending sort). -/
def sortStrings : List Str → List Str
  | [] => []
  | x :: xs => insertSorted x (sortStrings xs)

/-- Association-list lookup, modelling Go map access `m[key]`. -/
def lookupS {α : Type} : List (Str × α) → Str → Option α
  | [], _ => none
  | (k, v) :: rest, key => if k = key then some v else lookupS rest key

/-- Association-list update, modelling Go map assignment `m[key] = v`. -/
def upsert {α : Type} : List (Str × α) → Str → α → List (Str × α)
  | [], k, v => [(k, v)]
  | (k0, v0) :: rest, k, v =>
    if k0 = k then (k, v) :: rest else (k0, v0) :: upsert rest k v

/-! ## Keyed-collection differ (src/unnamed/part_004) -/

/-- Worker for the key-to-canonical-value maps built by `diffCaseInsensitive`:
trim each raw value, drop empties, key it by its lowercased form, and skip a
value whose key was already recorded (so the first occurrence wins, exactly as
the Go loop `if _, ok := m[key]; ok { continue }` behaves). `seen` is the set
of keys already in the map. -/
def buildKeyMapGo (seen : List Str) : List Str → List (Str × Str)
  | [] => []
  | raw :: rest =>
    let val := goTrim raw
    if val = [] then buildKeyMapGo seen rest
    else
      let key := goToLower val
      if key ∈ seen then buildKeyMapGo seen rest
      else (key, val) :: buildKeyMapGo (key :: seen) rest

/-- The key-to-canonical-value map one side of `diffCaseInsensitive` builds. -/
def buildKeyMap (xs : List Str) : List (Str × Str) := buildKeyMapGo [] xs

/-- Embedding of `diffCaseInsensitive` from src/unnamed/part_004: build a keyed
map per side, emit desired values whose key is absent from existing as toAdd
and existing values whose key is absent from desired as toRemove, both sorted. -/
def diffCaseInsensitive (desired existing : List Str) : List Str × List Str :=
  let desiredMap := buildKeyMap desired
  let existingMap := buildKeyMap existing
  let toAdd := (desiredMap.filter (fun kv => (lookupS existingMap kv.1).isNone)).map Prod.snd
  let toRemove := (existingMap.filter (fun kv => (lookupS desiredMap kv.1).isNone)).map Prod.snd
  (sortStrings toAdd, sortStrings toRemove)

/-- Worker for `normalizeStrings`; `seen` is the set of lowercased keys kept. -/
def normalizeStringsGo (seen : List Str) : List Str → List Str
  | [] => []
  | raw :: rest =>
    let val := goTrim raw
    if val = [] then normalizeStringsGo seen rest
    else
      let key := goToLower val
      if key ∈ seen then normalizeStringsGo seen rest
      else val :: normalizeStringsGo (key :: seen) rest

/-- Embedding of `normalizeStrings` from src/unnamed/part_004: trim, drop
empties, drop case-insensitive duplicates (first wins), sort. -/
def normalizeStrings (values : List Str) : List Str :=
  sortStrings (normalizeStringsGo [] values)

/-- The case-insensitive key set of one side: trimmed, nonempty, lowercased. -/
def keyList (xs : List Str) : List Str :=
  ((xs.map goTrim).filter (fun v => !v.isEmpty)).map goToLower

/-- The trimmed nonempty values of `xs` whose lowercased form is `k`, in input
order; the head of this list is the canonical value the differ records. -/
def canonCandidates (xs : List Str) (k : Str) : List Str :=
  (xs.map goTrim).filter (fun v => !v.isEmpty && (goToLower v == k))

/-! ## Wrong-region predicate (src/internal/resources/propagation_rule.go) -/

/-- An HTTP response as the wrong-region predicate sees it: a status code and
the response body (which `ReadAndRestoreResponseBody` yields; the pure model
assumes the body reads back successfully, the stateful model below covers the
read-and-restore mechanics). -/
structure HttpRespB where
  status : Nat
  body : Str
deriving DecidableEq

/-- Embedding of `isBadAuthorizationHeaderError`: a non-nil error and non-nil
response with status 403 whose lowercased body contains both
"invalid key=value pair" and "authorization header". -/
def isBadAuthorizationHeaderError (err : Option Str) (httpResp : Option HttpRespB) : Bool :=
  match err, httpResp with
  | some _, some r =>
    if r.status ≠ 403 then false
    else
      let msg := goToLower r.body
      goContains msg (str "invalid key=value pair") && goContains msg (str "authorization header")
  | _, _ => false

/-- Embedding of `shouldTryAlternateHostname`: non-nil error and response, and
either the bad-authorization-header symptom or a 404 status. -/
def shouldTryAlternateHostname (err : Option Str) (httpResp : Option HttpRespB) : Bool :=
  match err, httpResp with
  | some e, some r =>
    if isBadAuthorizationHeaderError (some e) (some r) then true
    else r.status == 404
  | _, _ => false

/-! ## Region fallback hostnames (src/internal/resources/propagation_rule.go) -/

/-- One server entry of the SDK configuration: its variable table, modelled as
an association list (a missing variable reads as the empty default, as a Go
map of structs yields a zero value). -/
structure ServerCfg where
  vars : List (Str × Str)
deriving DecidableEq

/-- The slice of the pingone-go-sdk configuration the hostname logic reads:
`DefaultServerIndex` and the per-server variable defaults. -/
structure MgmtConfig where
  defaultServerIndex : Nat
  servers : List ServerCfg
deriving DecidableEq

/-- Variable default of one server, empty when absent. -/
def varDefault (s : ServerCfg) (name : Str) : Str := (lookupS s.vars name).getD []

/-- Go strings.TrimSuffix: drop one trailing occurrence when present. -/
def goTrimSuffix (s suffixArg : Str) : Str :=
  if suffixArg.isSuffixOf s then s.take (s.length - suffixArg.length) else s

/-- Go strings.TrimPrefix: drop one leading occurrence when present. -/
def goTrimPrefixOf (s p : Str) : Str :=
  if p.isPrefixOf s then s.drop p.length else s

/-- Embedding of `currentPingOneHostname`: a nil client or nil config reads as
the empty hostname; server index 0 assembles baseDomain.suffix, index 1 reads
the baseHostname variable, anything else is empty. -/
def currentPingOneHostname (apiClient : Option MgmtConfig) : Str :=
  match apiClient with
  | none => []
  | some cfg =>
    match cfg.defaultServerIndex with
    | 0 =>
      if cfg.servers.length < 1 then []
      else
        match cfg.servers with
        | [] => []
        | s0 :: _ =>
          let baseDomain := goTrimSuffix (goTrim (varDefault s0 (str "baseDomain"))) (str ".")
          let suffixVal := goTrimPrefixOf (goTrim (varDefault s0 (str "suffix"))) (str ".")
          if baseDomain = [] ∨ suffixVal = [] then []
          else baseDomain ++ [ '.' ] ++ suffixVal
    | 1 =>
      if cfg.servers.length < 2 then []
      else
        match cfg.servers with
        | _ :: s1 :: _ => goTrim (varDefault s1 (str "baseHostname"))
        | _ => []
    | _ => []

/-- The dedup-and-skip-current loop at the end of `pingOneFallbackBaseHostnames`. -/
def fallbackDedup (current : Str) (seen : List Str) : List Str → List Str
  | [] => []
  | host0 :: rest =>
    let host := goTrim host0
    if host = [] ∨ host = current then fallbackDedup current seen rest
    else if host ∈ seen then fallbackDedup current seen rest
    else host :: fallbackDedup current (host :: seen) rest

/-- Embedding of `pingOneFallbackBaseHostnames`: a ranked candidate list chosen
by the current hostname's suffix, with the current host and duplicates removed. -/
def pingOneFallbackBaseHostnames (apiClient : Option MgmtConfig) : List Str :=
  let current := currentPingOneHostname apiClient
  let candidates :=
    if goEndsWith current (str ".com.au") then
      [str "api.pingone.asia", str "api.pingone.com", str "api.pingone.eu", str "api.pingone.ca"]
    else if goEndsWith current (str ".asia") then
      [str "api.pingone.com.au", str "api.pingone.com", str "api.pingone.eu", str "api.pingone.ca"]
    else if goEndsWith current (str ".eu") then
      [str "api.pingone.com", str "api.pingone.ca", str "api.pingone.asia", str "api.pingone.com.au"]
    else if goEndsWith current (str ".ca") then
      [str "api.pingone.com", str "api.pingone.eu", str "api.pingone.asia", str "api.pingone.com.au"]
    else if goEndsWith current (str ".com") then
      [str "api.pingone.eu", str "api.pingone.ca", str "api.pingone.asia", str "api.pingone.com.au"]
    else
      [str "api.pingone.com", str "api.pingone.eu", str "api.pingone.ca", str "api.pingone.asia",
        str "api.pingone.com.au"]
  fallbackDedup current [] candidates

/-! ## Retry policy (src/internal/provider/retry_transport.go and
src/internal/client/github_client.go)

Durations are Int nanoseconds, as Go's time.Duration. The HTTP-date branch of
the Retry-After handling composes http.ParseTime with time.Until(now); both
call sites invoke the same library functions on the same clock, so that
composite is modelled as a shared oracle `untilFn` mapping the header text to
the duration until the parsed date (none when parsing fails). The jitter value
is passed in explicitly, abstracting the float64 draw. -/

/-- One second in nanoseconds. -/
def nsPerSecond : Int := 1000000000

/-- retryTransport default maxBackoff (60s). -/
def rtMaxBackoff : Int := 60 * nsPerSecond

/-- retryTransport default initialBackoff (1s). -/
def rtInitialBackoff : Int := nsPerSecond

/-- retryTransport default maxRetryTimeout (5 minutes). -/
def rtMaxRetryTimeout : Int := 300 * nsPerSecond

/-- github client maxBackoff constant (60s). -/
def ghMaxBackoff : Int := 60 * nsPerSecond

/-- github client initialBackoff constant (1s). -/
def ghInitialBackoff : Int := nsPerSecond

/-- A response as the retry loops inspect it: status code and the value of the
Retry-After header, where the empty string means the header is absent (Go's
`Header.Get` yields "" in that case). -/
structure RetryResp where
  status : Nat
  retryAfter : Str
deriving DecidableEq

/-- Embedding of Go strconv.ParseInt(s, 10, 64): optional sign, nonempty
digits, whole-string match, int64 range. -/
def parseInt64 (s : Str) : Option Int :=
  let signDigits : Int × Str :=
    match s with
    | '-' :: rest => (-1, rest)
    | '+' :: rest => (1, rest)
    | _ => (1, s)
  let sign := signDigits.1
  let digits := signDigits.2
  if digits = [] then none
  else if digits.all Char.isDigit then
    let n : Nat := digits.foldl (fun acc c => acc * 10 + (c.toNat - 48)) 0
    let v : Int := sign * n
    if v < -(2 ^ 63) ∨ 2 ^ 63 ≤ v then none else some v
  else none

/-- Embedding of `(*retryTransport).shouldRetry`: retry on 429, 503, 504, 502. -/
def retryTransport_shouldRetry (status : Nat) : Bool :=
  if status = 429 then true
  else if status = 503 then true
  else if status = 504 then true
  else if status = 502 then true
  else false

/-- Embedding of `(*retryRoundTripper).shouldRetry` (same four statuses). -/
def retryRoundTripper_shouldRetry (status : Nat) : Bool :=
  if status = 429 ∨ status = 503 ∨ status = 504 ∨ status = 502 then true else false

/-- Embedding of `shouldRetryStatus` from the github client. -/
def shouldRetryStatus (status : Nat) : Bool :=
  if status = 429 ∨ status = 503 ∨ status = 504 ∨ status = 502 then true else false

/-- Embedding of `(*retryTransport).calculateBackoff`: Retry-After as integer
seconds (capped at the ceiling), else as an HTTP date (negatives clamped to the
initial backoff, capped at the ceiling), else exponential backoff plus jitter —
the jitter branch returns `currentBackoff + j` with no cap. -/
def retryTransport_calculateBackoff (untilFn : Str → Option Int) (resp : RetryResp)
    (currentBackoff : Int) (j : Int) : Int :=
  if resp.retryAfter ≠ [] then
    match parseInt64 resp.retryAfter with
    | some seconds =>
      let duration := seconds * nsPerSecond
      if duration > rtMaxBackoff then rtMaxBackoff else duration
    | none =>
      match untilFn resp.retryAfter with
      | some untilDur =>
        let d1 := if untilDur < 0 then rtInitialBackoff else untilDur
        if d1 > rtMaxBackoff then rtMaxBackoff else d1
      | none => currentBackoff + j
  else currentBackoff + j

/-- Embedding of `(*retryRoundTripper).calculateBackoff` (same body). -/
def retryRoundTripper_calculateBackoff (untilFn : Str → Option Int) (resp : RetryResp)
    (currentBackoff : Int) (j : Int) : Int :=
  if resp.retryAfter ≠ [] then
    match parseInt64 resp.retryAfter with
    | some seconds =>
      let duration := seconds * nsPerSecond
      if duration > rtMaxBackoff then rtMaxBackoff else duration
    | none =>
      match untilFn resp.retryAfter with
      | some untilDur =>
        let d1 := if untilDur < 0 then rtInitialBackoff else untilDur
        if d1 > rtMaxBackoff then rtMaxBackoff else d1
      | none => currentBackoff + j
  else currentBackoff + j

/-- Embedding of `calculateRetryBackoff` from the github client (same body,
with the github package constants). -/
def calculateRetryBackoff (untilFn : Str → Option Int) (resp : RetryResp)
    (currentBackoff : Int) (j : Int) : Int :=
  if resp.retryAfter ≠ [] then
    match parseInt64 resp.retryAfter with
    | some seconds =>
      let duration := seconds * nsPerSecond
      if duration > ghMaxBackoff then ghMaxBackoff else duration
    | none =>
      match untilFn resp.retryAfter with
      | some untilDur =>
        let d1 := if untilDur < 0 then ghInitialBackoff else untilDur
        if d1 > ghMaxBackoff then ghMaxBackoff else d1
      | none => currentBackoff + j
  else currentBackoff + j

/-- Embedding of `(*retryTransport).nextBackoff`: double, capped at the ceiling. -/
def retryTransport_nextBackoff (current : Int) : Int :=
  let next := current * 2
  if next > rtMaxBackoff then rtMaxBackoff else next

/-- Embedding of `(*retryRoundTripper).nextBackoff`: math.Min of the doubled
value and the ceiling. -/
def retryRoundTripper_nextBackoff (current : Int) : Int :=
  min (current * 2) rtMaxBackoff

/-- Embedding of `nextRetryBackoff` from the github client. -/
def nextRetryBackoff (current : Int) : Int :=
  let next := current * 2
  if next > ghMaxBackoff then ghMaxBackoff else next

/-! ## Retry transport loop (src/internal/provider/retry_transport.go) -/

/-- Outcome of one underlying round trip: a transport-level error or a response. -/
inductive NetOut where
  | err
  | resp (r : RetryResp)
deriving DecidableEq

/-- Events emitted by one run of `RoundTrip`: the i-th request attempt, a
completed sleep of a given duration, or a sleep begun and interrupted by
context cancellation. -/
inductive RTEvent where
  | request (i : Nat)
  | sleep (d : Int)
  | sleepInterrupted (d : Int)
deriving DecidableEq

/-- Final outcome of `RoundTrip`: a returned response (success, terminal
status, or deadline-exceeded early return of the last response), a network
error, or the context's cancellation error. -/
inductive RTResult where
  | ok (r : RetryResp)
  | netErr
  | cancelled
deriving DecidableEq

/-- The environment one `RoundTrip` call runs in: the underlying transport's
outcome per attempt, the jitter value drawn while sleeping after attempt `i`
given the current backoff, whether the caller's context gets cancelled during
the sleep after attempt `i`, and the shared Retry-After date oracle. -/
structure RTEnv where
  responses : Nat → NetOut
  jitter : Nat → Int → Int
  cancelDuringSleep : Nat → Bool
  untilFn : Str → Option Int

/-- Mutable state of the retry loop: attempt counter, current backoff, and
wall-clock time elapsed since the first attempt (the request itself is
instantaneous in the model, so elapsed time is the sum of completed sleeps;
the 5-minute deadline check `time.Now().After(deadline)` reads this clock). -/
structure RTState where
  attempt : Nat
  backoff : Int
  elapsed : Int
deriving DecidableEq

/-- Initial retry-loop state: attempt 0, backoff = initial backoff, no time
elapsed. -/
def rtInit : RTState := { attempt := 0, backoff := rtInitialBackoff, elapsed := 0 }

/-- One iteration of the `RoundTrip` retry loop: issue the request; return
immediately on a network error or a non-retryable response; return the
response as-is when the deadline has passed; otherwise compute the sleep,
clamp it to the time remaining before the deadline, and either get cancelled
during the sleep or complete it and advance the state. -/
def rtStep (env : RTEnv) (s : RTState) : (List RTEvent × RTResult) ⊕ (List RTEvent × RTState) :=
  match env.responses s.attempt with
  | NetOut.err => Sum.inl ([RTEvent.request s.attempt], RTResult.netErr)
  | NetOut.resp r =>
    if ¬ retryTransport_shouldRetry r.status then
      Sum.inl ([RTEvent.request s.attempt], RTResult.ok r)
    else if s.elapsed > rtMaxRetryTimeout then
      Sum.inl ([RTEvent.request s.attempt], RTResult.ok r)
    else
      let j := env.jitter s.attempt s.backoff
      let raw := retryTransport_calculateBackoff env.untilFn r s.backoff j
      let remaining := rtMaxRetryTimeout - s.elapsed
      let d := if raw > remaining then remaining else raw
      if env.cancelDuringSleep s.attempt then
        Sum.inl ([RTEvent.request s.attempt, RTEvent.sleepInterrupted d], RTResult.cancelled)
      else
        Sum.inr ([RTEvent.request s.attempt, RTEvent.sleep d],
          { attempt := s.attempt + 1,
            backoff := retryTransport_nextBackoff s.backoff,
            elapsed := s.elapsed + d })

/-- Run the retry loop for at most `fuel` iterations (the Go loop is bounded in
real time by its wall-clock deadline; `fuel` makes the model total, `none`
meaning the bound was reached while still looping). -/
def rtRun (env : RTEnv) : Nat → RTState → List RTEvent × Option RTResult
  | 0, _ => ([], none)
  | fuel + 1, s =>
    match rtStep env s with
    | Sum.inl (evs, res) => (evs, some res)
    | Sum.inr (evs, s2) =>
      let rec2 := rtRun env fuel s2
      (evs ++ rec2.1, rec2.2)

/-! ## Create-ID resolver (src/internal/resources/propagation_rule.go,
propagationRuleIDFromCreateResponse)

The JSON machinery is abstracted at the call boundary: the decoded create
response is represented by whether decoding failed, and otherwise by the `id`
string field when the decoded value is an object carrying one; a listed rule
is represented by the four string fields the matcher reads through
`utils.NestedString` (a missing field reads as the empty string, exactly what
`NestedString`'s ignored second return yields). The context is threaded in
through the poll outcomes: a list call issued under a cancelled context fails
with the context's error. -/

/-- A propagation rule as the list endpoint returns it, restricted to the
fields the matcher reads. -/
structure RuleObj where
  name : Str
  sourceStoreId : Str
  targetStoreId : Str
  id : Str
deriving DecidableEq

/-- Error of one poll of the list endpoint. -/
inductive PollErr where
  | ctxCanceled
  | httpErr (msg : Str)
  | notFoundYet
deriving DecidableEq

/-- Error returned by the create-ID resolver. -/
inductive RuleIdErr where
  | decodeFailed (msg : Str)
  | ambiguous (count : Nat) (name sourceId targetId : Str)
  | exhausted (name sourceId targetId : Str) (lastErr : Option PollErr)
deriving DecidableEq

/-- Events of one resolver run: the i-th poll of the list endpoint, and the
unconditional `time.Sleep` of `(attempt+1) * 300ms` that follows a
non-deciding poll. -/
inductive ResolveEvent where
  | poll (i : Nat)
  | sleepMs (ms : Nat)
deriving DecidableEq

/-- The natural-key filter of the poll loop: name must match exactly, and the
source/target store ids must match when the caller provided them. -/
def ruleMatches (name sourceStoreID targetStoreID : Str) (rule : RuleObj) : Bool :=
  rule.name == name
    && (sourceStoreID == [] || rule.sourceStoreId == sourceStoreID)
    && (targetStoreID == [] || rule.targetStoreId == targetStoreID)

/-- Ids of the listed rules matching the natural key, skipping empty ids. -/
def matchingIds (name sourceStoreID targetStoreID : Str) (rules : List RuleObj) : List Str :=
  ((rules.filter (ruleMatches name sourceStoreID targetStoreID)).map RuleObj.id).filter
    (fun i => !i.isEmpty)

/-- The poll loop of `propagationRuleIDFromCreateResponse`, iterated over the
remaining attempt indices: exactly one match returns its id, more than one
fails immediately with the count and natural key, zero matches (or a failed
list call) records the last error, sleeps, and continues; exhausting the
attempts is a terminal error carrying the natural key and last error. -/
def resolveGo (polls : Nat → PollErr ⊕ List RuleObj) (name sourceStoreID targetStoreID : Str) :
    List Nat → Option PollErr → List ResolveEvent × (RuleIdErr ⊕ Str)
  | [], lastErr => ([], Sum.inl (RuleIdErr.exhausted name sourceStoreID targetStoreID lastErr))
  | i :: rest, _lastErr =>
    match polls i with
    | Sum.inl e =>
      let rec2 := resolveGo polls name sourceStoreID targetStoreID rest (some e)
      (ResolveEvent.poll i :: ResolveEvent.sleepMs ((i + 1) * 300) :: rec2.1, rec2.2)
    | Sum.inr rules =>
      match matchingIds name sourceStoreID targetStoreID rules with
      | [oneId] => ([ResolveEvent.poll i], Sum.inr oneId)
      | [] =>
        let rec2 := resolveGo polls name sourceStoreID targetStoreID rest (some PollErr.notFoundYet)
        (ResolveEvent.poll i :: ResolveEvent.sleepMs ((i + 1) * 300) :: rec2.1, rec2.2)
      | ids =>
        ([ResolveEvent.poll i],
          Sum.inl (RuleIdErr.ambiguous ids.length name sourceStoreID targetStoreID))

/-- Embedding of `propagationRuleIDFromCreateResponse`: decode failure is an
error; a decoded object with a non-empty `id` is the fast path; otherwise poll
the list endpoint for attempts 0 through 4. `decodeResult` is `Sum.inl msg` on
a decode error and `Sum.inr idField` otherwise, where `idField` is the `id`
string when the decoded value is an object with one. -/
def propagationRuleIDFromCreateResponse (decodeResult : Str ⊕ Option Str)
    (polls : Nat → PollErr ⊕ List RuleObj) (name sourceStoreID targetStoreID : Str) :
    List ResolveEvent × (RuleIdErr ⊕ Str) :=
  match decodeResult with
  | Sum.inl msg => ([], Sum.inl (RuleIdErr.decodeFailed msg))
  | Sum.inr idField =>
    match idField with
    | some rid =>
      if rid ≠ [] then ([], Sum.inr rid)
      else resolveGo polls name sourceStoreID targetStoreID [0, 1, 2, 3, 4] none
    | none => resolveGo polls name sourceStoreID targetStoreID [0, 1, 2, 3, 4] none

/-! ## Response body read-and-restore (src/internal/utils/http_response_json.go) -/

/-- The mutable body of an HTTP response: what `io.ReadAll` would yield on it
now (an error, or the remaining bytes). A fresh `bytes.Buffer` wrapped in
`io.NopCloser` holding bytes `b` is the stream whose read yields `b`. -/
structure BodyStream where
  readAllResult : Str ⊕ Str
deriving DecidableEq

/-- An HTTP response with its mutable body (`none` models a nil Body). -/
structure HttpRespS where
  status : Nat
  bodyS : Option BodyStream
deriving DecidableEq

/-- Embedding of `utils.ReadAndRestoreResponseBody`: a nil response or nil body
yields nil bytes; otherwise read the body, propagate a read error, and on
success replace the body with a fresh buffer of the bytes read, returning
them. The pair is (result, response after the call). -/
def readAndRestoreResponseBody (resp : Option HttpRespS) :
    (Str ⊕ Str) × Option HttpRespS :=
  match resp with
  | none => (Sum.inr [], none)
  | some r =>
    match r.bodyS with
    | none => (Sum.inr [], some r)
    | some stream =>
      match stream.readAllResult with
      | Sum.inl e => (Sum.inl e, some r)
      | Sum.inr bodyBytes =>
        (Sum.inr bodyBytes,
          some { r with bodyS := some { readAllResult := Sum.inr bodyBytes } })

/-- Stateful embedding of `isBadAuthorizationHeaderError`, tracking the body
mutation done by its `ReadAndRestoreResponseBody` call; the pair is
(predicate result, response after the call). -/
def isBadAuthorizationHeaderErrorS (err : Option Str) (resp : Option HttpRespS) :
    Bool × Option HttpRespS :=
  match err, resp with
  | some _, some r =>
    if r.status ≠ 403 then (false, some r)
    else
      let readOut := readAndRestoreResponseBody (some r)
      match readOut.1 with
      | Sum.inl _ => (false, readOut.2)
      | Sum.inr body =>
        let msg := goToLower body
        (goContains msg (str "invalid key=value pair")
          && goContains msg (str "authorization header"), readOut.2)
  | _, some r => (false, some r)
  | _, none => (false, none)

/-! ## GitHub team reconcilers (src/internal/resources/github_enterprise_team.go
and the team-members resource)

Each sync fetches the existing collection, normalizes and diffs, then issues
at most one bulk-add call and one bulk-remove call. The HTTP layer is
abstracted at the call boundary by the outcome of each bulk call; the trace
records the calls in the order they are issued. -/

/-- Outcome of one github bulk call: a transport error or a status code. -/
inductive GhOutcome where
  | netErr (msg : Str)
  | resp (status : Nat)
deriving DecidableEq

/-- A remote call issued by a github team sync, with its payload values. -/
inductive SyncEvent where
  | addCall (values : List Str)
  | removeCall (values : List Str)
deriving DecidableEq

/-- Error returned by a github team sync. -/
inductive SyncErr where
  | listFailed (msg : Str)
  | net (msg : Str)
  | httpStatus (status : Nat)
deriving DecidableEq

/-- The bulk-remove half shared by both sync bodies: issue the remove call iff
there is something to remove, failing on a transport error or a status ≥ 300. -/
def ghRemovePhase (toRemove : List Str) (removeOutcome : GhOutcome) :
    List SyncEvent × Option SyncErr :=
  if toRemove.length > 0 then
    match removeOutcome with
    | GhOutcome.netErr e => ([SyncEvent.removeCall toRemove], some (SyncErr.net e))
    | GhOutcome.resp status =>
      if status ≥ 300 then ([SyncEvent.removeCall toRemove], some (SyncErr.httpStatus status))
      else ([SyncEvent.removeCall toRemove], none)
  else ([], none)

/-- Embedding of `syncEnterpriseTeamMembers`: list existing members, normalize
desired, diff case-insensitively, then issue the bulk-add call (when toAdd is
nonempty) followed by the bulk-remove call (when toRemove is nonempty),
stopping at the first failure. -/
def syncEnterpriseTeamMembers (existingResult : Str ⊕ List Str) (desired : List Str)
    (addOutcome removeOutcome : GhOutcome) : List SyncEvent × Option SyncErr :=
  match existingResult with
  | Sum.inl e => ([], some (SyncErr.listFailed e))
  | Sum.inr existing =>
    let desired2 := normalizeStrings desired
    let diffOut := diffCaseInsensitive desired2 existing
    let toAdd := diffOut.1
    let toRemove := diffOut.2
    if toAdd.length > 0 then
      match addOutcome with
      | GhOutcome.netErr e => ([SyncEvent.addCall toAdd], some (SyncErr.net e))
      | GhOutcome.resp status =>
        if status ≥ 300 then ([SyncEvent.addCall toAdd], some (SyncErr.httpStatus status))
        else
          let r := ghRemovePhase toRemove removeOutcome
          (SyncEvent.addCall toAdd :: r.1, r.2)
    else ghRemovePhase toRemove removeOutcome

/-- Embedding of `syncEnterpriseTeamOrganizations` (same structure as the
member sync, over organization slugs). -/
def syncEnterpriseTeamOrganizations (existingResult : Str ⊕ List Str) (desired : List Str)
    (addOutcome removeOutcome : GhOutcome) : List SyncEvent × Option SyncErr :=
  match existingResult with
  | Sum.inl e => ([], some (SyncErr.listFailed e))
  | Sum.inr existing =>
    let desired2 := normalizeStrings desired
    let diffOut := diffCaseInsensitive desired2 existing
    let toAdd := diffOut.1
    let toRemove := diffOut.2
    if toAdd.length > 0 then
      match addOutcome with
      | GhOutcome.netErr e => ([SyncEvent.addCall toAdd], some (SyncErr.net e))
      | GhOutcome.resp status =>
        if status ≥ 300 then ([SyncEvent.addCall toAdd], some (SyncErr.httpStatus status))
        else
          let r := ghRemovePhase toRemove removeOutcome
          (SyncEvent.addCall toAdd :: r.1, r.2)
    else ghRemovePhase toRemove removeOutcome

/-! ## Mapping reconciler (src/internal/resources/propagation_rule.go,
ensurePropagationRuleMappings)

The HTTP layer is abstracted at the call boundary: the initial list call's
outcome, a delete oracle per mapping id (covering
`deletePropagationMappingWithFallback`, whose internal host retries are all
removal traffic), and a create oracle per (hostname, mapping key) whose error
and response feed the wrong-region fallback loop embedded below. The create
payload is determined by the desired model, so keying the oracle by the
mapping key loses nothing the proved properties depend on. Go map iteration
order is unspecified; the model iterates in insertion order, and the proved
ordering properties hold for every order. -/

/-- A desired mapping as the terraform model supplies it (the three
`ValueString()` reads the reconciler performs). -/
structure MappingModel where
  sourceAttribute : Str
  targetAttribute : Str
  expression : Str
deriving DecidableEq

/-- A mapping object as the list endpoint returns it, restricted to the fields
read through `utils.NestedString` (missing fields read as empty). -/
structure ApiMapping where
  sourceAttribute : Str
  targetAttribute : Str
  expression : Str
  id : Str
deriving DecidableEq

/-- Embedding of `mappingKey`: trim all three fields; an empty target has no
key; the key encodes which of the three modes applies. -/
def mappingKey (source target expression : Str) : Str :=
  let source2 := goTrim source
  let target2 := goTrim target
  let expression2 := goTrim expression
  if target2 = [] then []
  else if expression2 ≠ [] ∧ source2 = [] then
    str "expr:" ++ target2 ++ str "->" ++ expression2
  else if source2 ≠ [] ∧ expression2 = [] then
    str "src:" ++ source2 ++ str "->" ++ target2
  else if source2 ≠ [] ∧ expression2 ≠ [] then
    str "src_expr:" ++ source2 ++ str "->" ++ target2 ++ str "->" ++ expression2
  else []

/-- Embedding of `mappingKeyFromAPI`. -/
def mappingKeyFromAPI (m : ApiMapping) : Str :=
  mappingKey m.sourceAttribute m.targetAttribute m.expression

/-- Build a key-to-item map by assignment (`m[key] = v`, last write wins),
skipping items with an empty key — the shape of both map-building loops in
`ensurePropagationRuleMappings`. -/
def buildKeyedLW {α : Type} (keyOf : α → Str) (items : List α) : List (Str × α) :=
  items.foldl (fun acc m => let key := keyOf m; if key = [] then acc else upsert acc key m) []

/-- A remote call issued by the mapping reconciler: a mapping deletion by id,
or a mapping creation attempt against a given hostname. -/
inductive EnsureEvent where
  | deleteCall (id : Str)
  | createCall (hostname : Str) (key : Str)
deriving DecidableEq

/-- Error returned by the mapping reconciler. -/
inductive EnsureErr where
  | listFailed (msg : Str)
  | deleteFailed (id : Str) (msg : Str)
  | createFailed (key : Str) (msg : Str)
deriving DecidableEq

/-- Outcome of one create attempt: the SDK call's error (none on success) and
the HTTP response it saw, as the fallback predicate inspects them. -/
structure CreateOut where
  err : Option Str
  resp : Option HttpRespB
deriving DecidableEq

/-- Embedding of `cloneManagementClientWithBaseHostname`: reject a nil client
or blank hostname, otherwise build a fresh configuration (sharing transport
plumbing, which the model does not track) pinned to server index 1 with the
given base hostname. The fresh configuration's server list is modelled from
the SDK's NewConfiguration, which provides the regional index-1 server entry. -/
def cloneManagementClientWithBaseHostname (apiClient : Option MgmtConfig)
    (baseHostname : Str) : Str ⊕ MgmtConfig :=
  match apiClient with
  | none => Sum.inl (str "nil api client")
  | some _ =>
    let h := goTrim baseHostname
    if h = [] then Sum.inl (str "empty base hostname")
    else
      Sum.inr
        { defaultServerIndex := 1,
          servers :=
            [ { vars := [] },
              { vars := [(str "baseHostname", h), (str "protocol", str "https")] } ] }

/-- The wrong-region fallback loop inside the create step of
`ensurePropagationRuleMappings`: walk the ranked candidate hostnames computed
from the current client; skip candidates that fail to clone; on a successful
attempt pin the alternate client and stop; on a failure that is not
wrong-region stop; otherwise keep the failure and continue. Returns the
events, the final (error, response) pair, and the client to use from now on. -/
def createFallbackLoop (createOutcome : Str → Str → CreateOut) (key : Str)
    (origCfg : Option MgmtConfig) :
    List Str → Option Str × Option HttpRespB →
      List EnsureEvent × (Option Str × Option HttpRespB) × Option MgmtConfig
  | [], cur => ([], cur, origCfg)
  | hostname :: rest, cur =>
    match cloneManagementClientWithBaseHostname origCfg hostname with
    | Sum.inl _ => createFallbackLoop createOutcome key origCfg rest cur
    | Sum.inr altCfg =>
      let out := createOutcome hostname key
      match out.err with
      | none => ([EnsureEvent.createCall hostname key], (none, out.resp), some altCfg)
      | some e =>
        if ¬ shouldTryAlternateHostname (some e) out.resp then
          ([EnsureEvent.createCall hostname key], (some e, out.resp), origCfg)
        else
          let rec2 := createFallbackLoop createOutcome key origCfg rest (some e, out.resp)
          (EnsureEvent.createCall hostname key :: rec2.1, rec2.2)

/-- The deletion loop of `ensurePropagationRuleMappings`: delete every existing
mapping whose key is not desired, skipping empty ids, failing on the first
delete error. -/
def ensureDeleteLoop (desiredKeys : List (Str × MappingModel)) (del : Str → Option Str) :
    List (Str × ApiMapping) → List EnsureEvent × Option EnsureErr
  | [] => ([], none)
  | (key, m) :: rest =>
    if (lookupS desiredKeys key).isSome then ensureDeleteLoop desiredKeys del rest
    else if m.id = [] then ensureDeleteLoop desiredKeys del rest
    else
      match del m.id with
      | some e => ([EnsureEvent.deleteCall m.id], some (EnsureErr.deleteFailed m.id e))
      | none =>
        let rec2 := ensureDeleteLoop desiredKeys del rest
        (EnsureEvent.deleteCall m.id :: rec2.1, rec2.2)

/-- The creation loop of `ensurePropagationRuleMappings`: create every desired
mapping whose key does not exist yet, attempting first against the current
(possibly already pinned) client, then through the wrong-region fallback loop;
fail on the first create error that survives the fallback. -/
def ensureCreateLoop (existingByKey : List (Str × ApiMapping))
    (createOutcome : Str → Str → CreateOut) :
    Option MgmtConfig → List (Str × MappingModel) → List EnsureEvent × Option EnsureErr
  | _, [] => ([], none)
  | requestCfg, (key, _m) :: rest =>
    if (lookupS existingByKey key).isSome then
      ensureCreateLoop existingByKey createOutcome requestCfg rest
    else
      let host := currentPingOneHostname requestCfg
      let out := createOutcome host key
      match out.err with
      | none =>
        let rec2 := ensureCreateLoop existingByKey createOutcome requestCfg rest
        (EnsureEvent.createCall host key :: rec2.1, rec2.2)
      | some e =>
        if shouldTryAlternateHostname (some e) out.resp then
          let fb := createFallbackLoop createOutcome key requestCfg
            (pingOneFallbackBaseHostnames requestCfg) (some e, out.resp)
          match fb.2.1.1 with
          | some e2 =>
            (EnsureEvent.createCall host key :: fb.1,
              some (EnsureErr.createFailed key e2))
          | none =>
            let rec2 := ensureCreateLoop existingByKey createOutcome fb.2.2 rest
            (EnsureEvent.createCall host key :: fb.1 ++ rec2.1, rec2.2)
        else ([EnsureEvent.createCall host key], some (EnsureErr.createFailed key e))

/-- Embedding of `ensurePropagationRuleMappings`: list existing mappings, key
both sides, delete undesired mappings, then create missing ones (with
wrong-region fallback and host pinning). `prior` is accepted and unused,
as in the source. -/
def ensurePropagationRuleMappings (apiClient : Option MgmtConfig)
    (listResult : Str ⊕ List ApiMapping) (del : Str → Option Str)
    (createOutcome : Str → Str → CreateOut) (_prior desired : List MappingModel) :
    List EnsureEvent × Option EnsureErr :=
  match listResult with
  | Sum.inl e => ([], some (EnsureErr.listFailed e))
  | Sum.inr existing =>
    let existingByKey := buildKeyedLW mappingKeyFromAPI existing
    let desiredKeys := buildKeyedLW
      (fun m => mappingKey m.sourceAttribute m.targetAttribute m.expression) desired
    let delOut := ensureDeleteLoop desiredKeys del existingByKey
    match delOut.2 with
    | some e => (delOut.1, some e)
    | none =>
      let crOut := ensureCreateLoop existingByKey createOutcome apiClient desiredKeys
      (delOut.1 ++ crOut.1, crOut.2)

/-! ## Concrete scenario configurations used by the closed theorems below -/

/-- A client configuration pinned (server index 1) to the .com production host. -/
def cfgCom : MgmtConfig :=
  { defaultServerIndex := 1,
    servers := [ { vars := [] }, { vars := [(str "baseHostname", str "api.pingone.com")] } ] }

/-- A retry environment where every attempt yields 429 with no Retry-After, the
jitter drawn during the seventh sleep is 10s (a possible outcome of
rand.Float64()*0.25*60s), and the context is never cancelled. -/
def envAll429 : RTEnv :=
  { responses := fun _ => NetOut.resp { status := 429, retryAfter := [] },
    jitter := fun i _ => if i = 6 then 10 * nsPerSecond else 0,
    cancelDuringSleep := fun _ => false,
    untilFn := fun _ => none }

/-- A retry environment with 429 responses, zero jitter, and a context that
gets cancelled during the very first sleep. -/
def envCancelFirstSleep : RTEnv :=
  { responses := fun _ => NetOut.resp { status := 429, retryAfter := [] },
    jitter := fun _ _ => 0,
    cancelDuringSleep := fun i => i = 0,
    untilFn := fun _ => none }

/-- A retry environment with 429 responses, zero jitter, and no cancellation. -/
def envZeroJitter : RTEnv :=
  { responses := fun _ => NetOut.resp { status := 429, retryAfter := [] },
    jitter := fun _ _ => 0,
    cancelDuringSleep := fun _ => false,
    untilFn := fun _ => none }

/-- A poll of the list endpoint is indecisive when it fails or matches nothing:
the loop records an error and keeps polling. -/
def pollIndecisive (name sourceStoreID targetStoreID : Str) : PollErr ⊕ List RuleObj → Prop
  | Sum.inl _ => True
  | Sum.inr rules => matchingIds name sourceStoreID targetStoreID rules = []

/-- Decide whether a resolver event is a sleep. -/
def isSleepEvent : ResolveEvent → Bool
  | ResolveEvent.sleepMs _ => true
  | _ => false

/-- Decide whether a resolver event is a poll of the list endpoint. -/
def isPollEvent : ResolveEvent → Bool
  | ResolveEvent.poll _ => true
  | _ => false

/-- Two listed rules that both match the natural key name "r". -/
def rulesAmbig : List RuleObj :=
  [ { name := str "r", sourceStoreId := [], targetStoreId := [], id := str "a" },
    { name := str "r", sourceStoreId := [], targetStoreId := [], id := str "b" } ]

/-- A poll schedule that finds nothing until attempt 2, which returns the two
ambiguous matches. -/
def pollsAmbig : Nat → PollErr ⊕ List RuleObj := fun i =>
  if i = 2 then Sum.inr rulesAmbig else Sum.inr []

/-! # Theorems -/

/-! ## Differ lemmas -/

/-- Membership through sorted insertion. -/
theorem mem_insertSorted (a x : Str) (l : List Str) :
    a ∈ insertSorted x l ↔ a = x ∨ a ∈ l := by
  induction l with
  | nil => simp [insertSorted]
  | cons y ys ih =>
    simp only [insertSorted]
    by_cases h : lexLt y x = true
    · simp [h, ih]
      tauto
    · simp [h]

/-- Sorting preserves membership. -/
theorem mem_sortStrings (a : Str) (l : List Str) : a ∈ sortStrings l ↔ a ∈ l := by
  induction l with
  | nil => simp [sortStrings]
  | cons x xs ih => simp [sortStrings, mem_insertSorted, ih]

/-- Keys recorded by the map builder are never keys it was told are taken. -/
theorem buildKeyMapGo_key_notin (xs : List Str) (k v : Str) :
    ∀ seen, (k, v) ∈ buildKeyMapGo seen xs → k ∉ seen := by
  induction xs with
  | nil => intro seen h; simp [buildKeyMapGo] at h
  | cons raw rest ih =>
    intro seen h
    simp only [buildKeyMapGo] at h
    split_ifs at h with h1 h2
    · exact ih seen h
    · exact ih seen h
    · rcases List.mem_cons.mp h with heq | hmem
      · have hk : k = goToLower (goTrim raw) := by
          have := congrArg Prod.fst heq
          simpa using this
        rw [hk]; exact h2
      · have := ih _ hmem
        intro hk
        exact this (List.mem_cons_of_mem _ hk)

/-- Every entry of the builder's map is a trimmed nonempty input value keyed by
its lowercased form. -/
theorem buildKeyMapGo_entry (xs : List Str) (k v : Str) :
    ∀ seen, (k, v) ∈ buildKeyMapGo seen xs →
      goToLower v = k ∧ v ≠ [] ∧ ∃ raw, raw ∈ xs ∧ v = goTrim raw := by
  induction xs with
  | nil => intro seen h; simp [buildKeyMapGo] at h
  | cons raw rest ih =>
    intro seen h
    simp only [buildKeyMapGo] at h
    split_ifs at h with h1 h2
    · obtain ⟨ha, hb, raw2, hr, hv⟩ := ih seen h
      exact ⟨ha, hb, raw2, List.mem_cons_of_mem _ hr, hv⟩
    · obtain ⟨ha, hb, raw2, hr, hv⟩ := ih seen h
      exact ⟨ha, hb, raw2, List.mem_cons_of_mem _ hr, hv⟩
    · rcases List.mem_cons.mp h with heq | hmem
      · have hk : k = goToLower (goTrim raw) := by
          have := congrArg Prod.fst heq
          simpa using this
        have hv : v = goTrim raw := by
          have := congrArg Prod.snd heq
          simpa using this
        exact ⟨by rw [hv, hk], by rw [hv]; exact h1, raw, List.mem_cons_self _ _, hv⟩
      · obtain ⟨ha, hb, raw2, hr, hv⟩ := ih _ hmem
        exact ⟨ha, hb, raw2, List.mem_cons_of_mem _ hr, hv⟩

/-- Unfolding of the candidate list over a cons cell. -/
theorem canonCandidates_cons (raw : Str) (rest : List Str) (k : Str) :
    canonCandidates (raw :: rest) k =
      if (!(goTrim raw).isEmpty && (goToLower (goTrim raw) == k)) = true
      then goTrim raw :: canonCandidates rest k
      else canonCandidates rest k := by
  simp only [canonCandidates, List.map_cons, List.filter_cons]

/-- The builder's map looks up a key to the first trimmed nonempty input value
with that lowercased key, provided the key is not already taken. -/
theorem lookupS_buildKeyMapGo (xs : List Str) (k : Str) :
    ∀ seen, lookupS (buildKeyMapGo seen xs) k =
      if k ∈ seen then none else (canonCandidates xs k).head? := by
  induction xs with
  | nil =>
    intro seen
    simp [buildKeyMapGo, lookupS, canonCandidates]
  | cons raw rest ih =>
    intro seen
    simp only [buildKeyMapGo]
    rw [canonCandidates_cons]
    by_cases h1 : goTrim raw = []
    · rw [if_pos h1]
      have hfe : (!(goTrim raw).isEmpty && (goToLower (goTrim raw) == k)) = false := by
        simp [h1]
      rw [hfe, ih]
      simp
    · rw [if_neg h1]
      by_cases h2 : goToLower (goTrim raw) ∈ seen
      · rw [if_pos h2, ih]
        by_cases h3 : k ∈ seen
        · simp [h3]
        · have hne : goToLower (goTrim raw) ≠ k := fun he => h3 (he ▸ h2)
          have hfe : (!(goTrim raw).isEmpty && (goToLower (goTrim raw) == k)) = false := by
            simp [hne]
          rw [hfe]
          simp [h3]
      · rw [if_neg h2]
        simp only [lookupS]
        by_cases h3 : goToLower (goTrim raw) = k
        · rw [if_pos h3]
          have hkn : k ∉ seen := fun hk => h2 (h3 ▸ hk)
          have hfe : (!(goTrim raw).isEmpty && (goToLower (goTrim raw) == k)) = true := by
            simp [h1, h3]
          rw [hfe]
          simp [hkn]
        · rw [if_neg h3, ih]
          have hfe : (!(goTrim raw).isEmpty && (goToLower (goTrim raw) == k)) = false := by
            simp [h3]
          rw [hfe]
          by_cases h4 : k ∈ seen
          · simp [h4, List.mem_cons]
          · have : k ∉ goToLower (goTrim raw) :: seen := by
              intro hk
              rcases List.mem_cons.mp hk with he | hs
              · exact h3 he.symm
              · exact h4 hs
            simp [h4, this]

/-- Specialization to the maps the differ builds. -/
theorem lookupS_buildKeyMap (xs : List Str) (k : Str) :
    lookupS (buildKeyMap xs) k = (canonCandidates xs k).head? := by
  simpa [buildKeyMap] using lookupS_buildKeyMapGo xs k []

/-- Map membership and lookup agree on the builder's maps (keys are unique). -/
theorem mem_buildKeyMapGo_iff_lookup (xs : List Str) (k v : Str) :
    ∀ seen, ((k, v) ∈ buildKeyMapGo seen xs ↔ lookupS (buildKeyMapGo seen xs) k = some v) := by
  induction xs with
  | nil => intro seen; simp [buildKeyMapGo, lookupS]
  | cons raw rest ih =>
    intro seen
    simp only [buildKeyMapGo]
    split_ifs with h1 h2
    · exact ih seen
    · exact ih seen
    · simp only [List.mem_cons, lookupS]
      by_cases h3 : goToLower (goTrim raw) = k
      · rw [if_pos h3]
        constructor
        · rintro (heq | hmem)
          · have := congrArg Prod.snd heq
            simp at this
            simp [this]
          · exfalso
            have := buildKeyMapGo_key_notin rest k v _ hmem
            exact this (h3 ▸ List.mem_cons_self _ _)
        · intro hv
          left
          have hveq : v = goTrim raw := by simpa using hv.symm
          simp [h3, hveq]
      · rw [if_neg h3]
        rw [← ih (goToLower (goTrim raw) :: seen)]
        constructor
        · rintro (heq | hmem)
          · exfalso
            have := congrArg Prod.fst heq
            simp at this
            exact h3 this.symm
          · exact hmem
        · intro hmem
          right
          exact hmem

/-- A key is in the key set iff it has at least one candidate value. -/
theorem mem_keyList_iff (xs : List Str) (k : Str) :
    k ∈ keyList xs ↔ canonCandidates xs k ≠ [] := by
  induction xs with
  | nil => simp [keyList, canonCandidates]
  | cons raw rest ih =>
    rw [canonCandidates_cons]
    simp only [keyList, List.map_cons, List.filter_cons] at *
    by_cases h1 : goTrim raw = []
    · have he : (!(goTrim raw).isEmpty) = false := by simp [h1]
      simp only [he, Bool.false_and, if_false]
      simpa [he] using ih
    · have he : (!(goTrim raw).isEmpty) = true := by simp [h1]
      by_cases h3 : goToLower (goTrim raw) = k
      · have : (!(goTrim raw).isEmpty && (goToLower (goTrim raw) == k)) = true := by
          simp [h1, h3]
        rw [this]
        simp only [he, if_true, List.map_cons, List.mem_cons]
        constructor
        · intro _; simp
        · intro _; left; exact h3.symm
      · have : (!(goTrim raw).isEmpty && (goToLower (goTrim raw) == k)) = false := by
          simp [h3]
        rw [this]
        simp only [he, if_true, List.map_cons, List.mem_cons]
        constructor
        · rintro (heq | hmem)
          · exact absurd heq.symm h3
          · exact (ih.mp hmem)
        · intro h
          right
          exact ih.mpr h

/-- The two sides of the differ are mirror images. -/
theorem diffCaseInsensitive_swap (desired existing : List Str) :
    (diffCaseInsensitive desired existing).2 = (diffCaseInsensitive existing desired).1 := rfl

/-- Value-level membership in toAdd: exactly the canonical desired values whose
key the existing side lacks. -/
theorem mem_diff_toAdd (desired existing : List Str) (v : Str) :
    v ∈ (diffCaseInsensitive desired existing).1 ↔
      (lookupS (buildKeyMap desired) (goToLower v) = some v ∧
       lookupS (buildKeyMap existing) (goToLower v) = none) := by
  simp only [diffCaseInsensitive]
  rw [mem_sortStrings]
  simp only [List.mem_map, List.mem_filter]
  constructor
  · rintro ⟨⟨k0, v0⟩, ⟨hmem, hfilt⟩, heq⟩
    simp only at heq
    subst heq
    simp only [buildKeyMap] at hmem
    obtain ⟨hk, _, _⟩ := buildKeyMapGo_entry desired k0 v0 [] hmem
    constructor
    · rw [hk]
      exact (mem_buildKeyMapGo_iff_lookup desired k0 v0 []).mp hmem
    · simp only at hfilt
      rw [hk]
      exact Option.isNone_iff_eq_none.mp hfilt
  · rintro ⟨h1, h2⟩
    refine ⟨(goToLower v, v), ⟨?_, ?_⟩, rfl⟩
    · exact (mem_buildKeyMapGo_iff_lookup desired (goToLower v) v []).mpr h1
    · simp [h2]

/-- Key-level membership in toAdd. -/
theorem mem_diff_toAdd_keys (desired existing : List Str) (k : Str) :
    k ∈ (diffCaseInsensitive desired existing).1.map goToLower ↔
      (k ∈ keyList desired ∧ k ∉ keyList existing) := by
  simp only [List.mem_map]
  constructor
  · rintro ⟨v, hv, rfl⟩
    obtain ⟨h1, h2⟩ := (mem_diff_toAdd desired existing v).mp hv
    constructor
    · rw [mem_keyList_iff]
      intro hnil
      rw [lookupS_buildKeyMap, hnil] at h1
      simp at h1
    · rw [mem_keyList_iff]
      intro hne
      rw [lookupS_buildKeyMap] at h2
      rcases hc : canonCandidates existing (goToLower v) with _ | ⟨a, l⟩
      · exact hne hc
      · rw [hc] at h2
        simp at h2
  · rintro ⟨hk1, hk2⟩
    have hcd : canonCandidates desired k ≠ [] := (mem_keyList_iff desired k).mp hk1
    obtain ⟨v, hv⟩ : ∃ v, (canonCandidates desired k).head? = some v := by
      rcases hc : canonCandidates desired k with _ | ⟨a, l⟩
      · exact absurd hc hcd
      · exact ⟨a, rfl⟩
    have hlk : lookupS (buildKeyMap desired) k = some v := by
      rw [lookupS_buildKeyMap]; exact hv
    have hmem : (k, v) ∈ buildKeyMapGo [] desired :=
      (mem_buildKeyMapGo_iff_lookup desired k v []).mpr hlk
    obtain ⟨hkv, _, _⟩ := buildKeyMapGo_entry desired k v [] hmem
    have hce : canonCandidates existing k = [] := by
      by_contra hne
      exact hk2 ((mem_keyList_iff existing k).mpr hne)
    refine ⟨v, ?_, hkv⟩
    rw [mem_diff_toAdd, hkv]
    refine ⟨hlk, ?_⟩
    rw [lookupS_buildKeyMap, hce]
    rfl

/-- C1: for all desired and existing identifier lists, `diffCaseInsensitive`
returns toAdd holding exactly the desired values whose trimmed lowercased key
is absent from the existing side, toRemove holding exactly the existing values
whose key is absent from the desired side, the two key sets are disjoint
(toAdd keys = D minus E, toRemove keys = E minus D over the key sets D and E),
and every emitted value is a trimmed input value of its own side. -/
theorem diffCaseInsensitive_correct (desired existing : List Str) :
    (∀ k, k ∈ (diffCaseInsensitive desired existing).1.map goToLower ↔
        (k ∈ keyList desired ∧ k ∉ keyList existing))
  ∧ (∀ k, k ∈ (diffCaseInsensitive desired existing).2.map goToLower ↔
        (k ∈ keyList existing ∧ k ∉ keyList desired))
  ∧ (∀ k, ¬ (k ∈ (diffCaseInsensitive desired existing).1.map goToLower ∧
        k ∈ (diffCaseInsensitive desired existing).2.map goToLower))
  ∧ (∀ v, v ∈ (diffCaseInsensitive desired existing).1 →
        ∃ raw, raw ∈ desired ∧ v = goTrim raw)
  ∧ (∀ v, v ∈ (diffCaseInsensitive desired existing).2 →
        ∃ raw, raw ∈ existing ∧ v = goTrim raw) := by
  refine ⟨fun k => mem_diff_toAdd_keys desired existing k, ?_, ?_, ?_, ?_⟩
  · intro k
    rw [diffCaseInsensitive_swap]
    exact mem_diff_toAdd_keys existing desired k
  · intro k ⟨h1, h2⟩
    rw [mem_diff_toAdd_keys] at h1
    rw [diffCaseInsensitive_swap, mem_diff_toAdd_keys] at h2
    exact h2.2 h1.1
  · intro v hv
    obtain ⟨h1, _⟩ := (mem_diff_toAdd desired existing v).mp hv
    have hmem : (goToLower v, v) ∈ buildKeyMapGo [] desired :=
      (mem_buildKeyMapGo_iff_lookup desired (goToLower v) v []).mpr h1
    obtain ⟨_, _, raw, hr, hv2⟩ := buildKeyMapGo_entry desired (goToLower v) v [] hmem
    exact ⟨raw, hr, hv2⟩
  · intro v hv
    rw [diffCaseInsensitive_swap] at hv
    obtain ⟨h1, _⟩ := (mem_diff_toAdd existing desired v).mp hv
    have hmem : (goToLower v, v) ∈ buildKeyMapGo [] existing :=
      (mem_buildKeyMapGo_iff_lookup existing (goToLower v) v []).mpr h1
    obtain ⟨_, _, raw, hr, hv2⟩ := buildKeyMapGo_entry existing (goToLower v) v [] hmem
    exact ⟨raw, hr, hv2⟩

/-- C1 witness: the theorem applied at a concrete input, hypotheses discharged. -/
theorem diffCaseInsensitive_correct_witness :
    ∃ raw, raw ∈ [str "Alice"] ∧ str "Alice" = goTrim raw :=
  (diffCaseInsensitive_correct [str "Alice"] [str "Bob"]).2.2.2.1 (str "Alice") (by decide)

/-- C6 counterexample: with duplicate keys on one side the differ emits the
FIRST item in input order, not the last; on desired = ["Alice", "ALICE"] the
emitted value is "Alice", while last-write-wins would emit "ALICE". -/
theorem diffCaseInsensitive_last_write_cex :
    diffCaseInsensitive [str "Alice", str "ALICE"] [] = ([str "Alice"], [])
    ∧ diffCaseInsensitive [str "Alice", str "ALICE"] [] ≠ ([str "ALICE"], []) := by
  decide

/-- C6 amended: when one side holds several items with the same
case-insensitive key, the canonical value recorded for the key — and hence the
value emitted in toAdd or toRemove — is the FIRST such item in input order
(the Go loops skip a key that is already present). -/
theorem diffCaseInsensitive_first_write_wins (desired existing : List Str) (k v : Str) :
    (lookupS (buildKeyMap desired) k = some v ↔ (canonCandidates desired k).head? = some v)
  ∧ (v ∈ (diffCaseInsensitive desired existing).1 →
      (canonCandidates desired (goToLower v)).head? = some v)
  ∧ (v ∈ (diffCaseInsensitive desired existing).2 →
      (canonCandidates existing (goToLower v)).head? = some v) := by
  refine ⟨by rw [lookupS_buildKeyMap], ?_, ?_⟩
  · intro hv
    obtain ⟨h1, _⟩ := (mem_diff_toAdd desired existing v).mp hv
    rw [← lookupS_buildKeyMap]
    exact h1
  · intro hv
    rw [diffCaseInsensitive_swap] at hv
    obtain ⟨h1, _⟩ := (mem_diff_toAdd existing desired v).mp hv
    rw [← lookupS_buildKeyMap]
    exact h1

/-- C6 witness: the amended theorem applied at the concrete duplicate input. -/
theorem diffCaseInsensitive_first_write_wins_witness :
    (canonCandidates [str "Alice", str "ALICE"] (goToLower (str "Alice"))).head? =
      some (str "Alice") :=
  (diffCaseInsensitive_first_write_wins [str "Alice", str "ALICE"] [] [] (str "Alice")).2.1
    (by decide)

/-- C5 counterexample: on the repository's own test input — a 403 whose body is
"Invalid key=value pair (missing equal-sign) in Authorization header" — the
predicate holds although the body does not contain the lowercase substrings
literally (matching is case-insensitive) and the status is not 404, so the
claimed if-and-only-if with literal substring containment fails. -/
theorem shouldTryAlternateHostname_case_cex :
    shouldTryAlternateHostname (some (str "boom"))
      (some { status := 403,
              body := str "Invalid key=value pair (missing equal-sign) in Authorization header" })
      = true
    ∧ goContains (str "Invalid key=value pair (missing equal-sign) in Authorization header")
        (str "invalid key=value pair") = false
    ∧ goContains (str "Invalid key=value pair (missing equal-sign) in Authorization header")
        (str "authorization header") = false
    ∧ (403 : Nat) ≠ 404 := by decide

/-- C5 amended: `shouldTryAlternateHostname err resp` holds iff err is non-nil,
resp is non-nil, and either resp has status 403 and its LOWERCASED body
contains both "invalid key=value pair" and "authorization header"
(case-insensitive containment), or resp has status 404. -/
theorem shouldTryAlternateHostname_spec (err : Option Str) (resp : Option HttpRespB) :
    shouldTryAlternateHostname err resp = true ↔
      (err.isSome = true ∧ ∃ r, resp = some r ∧
        ((r.status = 403
            ∧ goContains (goToLower r.body) (str "invalid key=value pair") = true
            ∧ goContains (goToLower r.body) (str "authorization header") = true)
          ∨ r.status = 404)) := by
  cases err with
  | none => simp [shouldTryAlternateHostname]
  | some e =>
    cases resp with
    | none => simp [shouldTryAlternateHostname]
    | some r =>
      constructor
      · intro h
        refine ⟨rfl, r, rfl, ?_⟩
        by_cases h403 : r.status = 403
        · left
          simp only [shouldTryAlternateHostname, isBadAuthorizationHeaderError, h403,
            ne_eq, not_true_eq_false, if_false] at h
          by_cases hc : (goContains (goToLower r.body) (str "invalid key=value pair")
              && goContains (goToLower r.body) (str "authorization header")) = true
          · obtain ⟨hc1, hc2⟩ := Bool.and_eq_true_iff.mp hc
            exact ⟨h403, hc1, hc2⟩
          · rw [Bool.not_eq_true] at hc
            rw [hc] at h
            simp [h403] at h
        · right
          simp only [shouldTryAlternateHostname, isBadAuthorizationHeaderError, h403,
            ne_eq, not_false_eq_true, if_true, Bool.false_eq_true, if_false, beq_iff_eq] at h
          exact h
      · rintro ⟨-, r2, heq, hcase⟩
        have hr : r2 = r := by
          injection heq with h2
          exact h2.symm
        subst hr
        rcases hcase with ⟨h403, hc1, hc2⟩ | h404
        · simp [shouldTryAlternateHostname, isBadAuthorizationHeaderError, h403, hc1, hc2]
        · by_cases h403 : r2.status = 403
          · rw [h403] at h404
            simp at h404
          · simp [shouldTryAlternateHostname, isBadAuthorizationHeaderError, h403, h404]

/-- C5 amended-theorem witness at a concrete 404 response. -/
theorem shouldTryAlternateHostname_spec_witness :
    shouldTryAlternateHostname (some (str "boom")) (some { status := 404, body := [] }) = true :=
  (shouldTryAlternateHostname_spec (some (str "boom"))
      (some { status := 404, body := [] })).mpr
    ⟨rfl, { status := 404, body := [] }, rfl, Or.inr rfl⟩

/-- C4: a create failure of HTTP 403 carrying the wrong-region
authorization-header symptom is recognized by the fallback predicate, and with
the configured host being the .com production host (the spec's
api.example.com placeholder corresponds to api.pingone.com in the code), the
ranked alternate list is exactly eu, ca, asia, com.au — so the first alternate
attempt goes to the .eu host. -/
theorem pingOneFallback_com_first_alternate_eu :
    shouldTryAlternateHostname (some (str "create failed"))
      (some { status := 403,
              body := str "invalid key=value pair (missing equal-sign) in authorization header" })
      = true
    ∧ currentPingOneHostname (some cfgCom) = str "api.pingone.com"
    ∧ pingOneFallbackBaseHostnames (some cfgCom) =
        [str "api.pingone.eu", str "api.pingone.ca", str "api.pingone.asia",
          str "api.pingone.com.au"]
    ∧ (pingOneFallbackBaseHostnames (some cfgCom)).head? = some (str "api.pingone.eu") := by
  decide

/-- C8: the retry policies of the PingOne transports and the GitHub client are
extensionally equal — they agree on which statuses are retryable, and given
the same response, current backoff, and jitter draw they compute the same wait
and the same next backoff. -/
theorem retry_policies_agree :
    (∀ status, retryTransport_shouldRetry status = shouldRetryStatus status
      ∧ retryRoundTripper_shouldRetry status = shouldRetryStatus status
      ∧ (shouldRetryStatus status = true ↔
          (status = 429 ∨ status = 502 ∨ status = 503 ∨ status = 504)))
  ∧ (∀ untilFn resp currentBackoff j,
      retryTransport_calculateBackoff untilFn resp currentBackoff j =
        calculateRetryBackoff untilFn resp currentBackoff j
      ∧ retryRoundTripper_calculateBackoff untilFn resp currentBackoff j =
        calculateRetryBackoff untilFn resp currentBackoff j)
  ∧ (∀ current, retryTransport_nextBackoff current = nextRetryBackoff current
      ∧ retryRoundTripper_nextBackoff current = nextRetryBackoff current) := by
  refine ⟨?_, ?_, ?_⟩
  · intro status
    refine ⟨?_, rfl, ?_⟩
    · simp only [retryTransport_shouldRetry, shouldRetryStatus]
      by_cases h1 : status = 429 <;> by_cases h2 : status = 503 <;>
        by_cases h3 : status = 504 <;> by_cases h4 : status = 502 <;>
        simp [h1, h2, h3, h4]
    · simp only [shouldRetryStatus]
      split_ifs with h
      · simp only [true_iff]
        tauto
      · simp only [Bool.false_eq_true, false_iff]
        tauto
  · intro untilFn resp currentBackoff j
    exact ⟨rfl, rfl⟩
  · intro current
    refine ⟨rfl, ?_⟩
    simp only [retryRoundTripper_nextBackoff, nextRetryBackoff, rtMaxBackoff, ghMaxBackoff]
    split_ifs with h
    · exact min_eq_right h.le
    · exact min_eq_left (not_lt.mp h)

/-- The doubled-and-capped backoff stays within 0 and the 60s ceiling. -/
theorem retryTransport_nextBackoff_bounds (b : Int) (h0 : 0 ≤ b) :
    0 ≤ retryTransport_nextBackoff b ∧ retryTransport_nextBackoff b ≤ rtMaxBackoff := by
  simp only [retryTransport_nextBackoff, rtMaxBackoff, nsPerSecond]
  split_ifs with h <;> omega

/-- Every sleep duration the retry loop computes (completed or interrupted) is
at most 75s, provided the jitter stays in the envelope of the float draw and
no response carries Retry-After; proved by induction with the invariant that
the current backoff lies in [0s, 60s]. -/
theorem rtRun_sleep_bound (env : RTEnv)
    (hj : ∀ i b, 0 ≤ b → 0 ≤ env.jitter i b ∧ 4 * env.jitter i b ≤ b)
    (hra : ∀ i r, env.responses i = NetOut.resp r → r.retryAfter = []) :
    ∀ fuel s, 0 ≤ s.backoff → s.backoff ≤ rtMaxBackoff →
      ∀ d, (RTEvent.sleep d ∈ (rtRun env fuel s).1 ∨
            RTEvent.sleepInterrupted d ∈ (rtRun env fuel s).1) →
        d ≤ 75 * nsPerSecond := by
  intro fuel
  induction fuel with
  | zero =>
    intro s h0 h60 d hd
    simp [rtRun] at hd
  | succ n ih =>
    intro s h0 h60 d hd
    rcases hresp : env.responses s.attempt with _ | r
    · simp only [rtRun, rtStep, hresp] at hd
      simp at hd
    · have hr0 : r.retryAfter = [] := hra s.attempt r hresp
      have hjb := hj s.attempt s.backoff h0
      have hraw : retryTransport_calculateBackoff env.untilFn r s.backoff
          (env.jitter s.attempt s.backoff) = s.backoff + env.jitter s.attempt s.backoff := by
        simp [retryTransport_calculateBackoff, hr0]
      have hrawle : retryTransport_calculateBackoff env.untilFn r s.backoff
          (env.jitter s.attempt s.backoff) ≤ 75 * nsPerSecond := by
        rw [hraw]
        have h60n : s.backoff ≤ 60 * nsPerSecond := by
          simpa [rtMaxBackoff] using h60
        omega
      have hclamp : (if retryTransport_calculateBackoff env.untilFn r s.backoff
            (env.jitter s.attempt s.backoff) > rtMaxRetryTimeout - s.elapsed
          then rtMaxRetryTimeout - s.elapsed
          else retryTransport_calculateBackoff env.untilFn r s.backoff
            (env.jitter s.attempt s.backoff)) ≤ 75 * nsPerSecond := by
        split_ifs with hgt
        · omega
        · exact hrawle
      simp only [rtRun, rtStep, hresp] at hd
      by_cases hretry : retryTransport_shouldRetry r.status = true
      · simp only [hretry, not_true_eq_false, if_false] at hd
        by_cases hdl : s.elapsed > rtMaxRetryTimeout
        · simp only [hdl, if_true] at hd
          simp at hd
        · simp only [hdl, if_false] at hd
          by_cases hcan : env.cancelDuringSleep s.attempt = true
          · simp only [hcan, if_true] at hd
            simp only [List.mem_cons, List.not_mem_nil, or_false] at hd
            rcases hd with (h | h) | (h | h)
            · simp at h
            · simp at h
            · simp at h
            · simp only [RTEvent.sleepInterrupted.injEq] at h
              rw [h]
              exact hclamp
          · simp only [Bool.not_eq_true] at hcan
            simp only [hcan, Bool.false_eq_true, if_false] at hd
            simp only [List.mem_append, List.mem_cons, List.not_mem_nil, or_false] at hd
            have hnb := retryTransport_nextBackoff_bounds s.backoff h0
            rcases hd with ((h | h) | h) | ((h | h) | h)
            · simp at h
            · simp only [RTEvent.sleep.injEq] at h
              rw [h]
              exact hclamp
            · exact ih _ hnb.1 hnb.2 d (Or.inl h)
            · simp at h
            · simp at h
            · exact ih _ hnb.1 hnb.2 d (Or.inr h)
      · simp only [Bool.not_eq_true] at hretry
        simp only [hretry, Bool.false_eq_true, not_false_eq_true, if_true] at hd
        simp at hd

/-- C3 counterexample: with every response 429 and no Retry-After, after six
doublings the backoff sits at the 60s ceiling, and a jitter draw of 10s (well
inside the 25%-of-60s envelope) makes the computed sleep 70s — beyond the 60s
ceiling the claim asserts; the retry loop actually emits that 70s sleep. -/
theorem retry_sleep_exceeds_ceiling_cex :
    RTEvent.sleep (70 * nsPerSecond) ∈ (rtRun envAll429 8 rtInit).1
    ∧ 70 * nsPerSecond > rtMaxBackoff
    ∧ (0 : Int) ≤ envAll429.jitter 6 (60 * nsPerSecond)
    ∧ 4 * envAll429.jitter 6 (60 * nsPerSecond) ≤ 60 * nsPerSecond
    ∧ envAll429.responses 6 = NetOut.resp { status := 429, retryAfter := [] } := by
  refine ⟨by decide, by decide, by decide, by decide, rfl⟩

/-- C3 amended: for retryable responses without Retry-After, every attempt
count and every jitter outcome, the sleep the retrying transport computes is
bounded by 75s = ceiling + 25% jitter: the 60s ceiling caps the pre-jitter
backoff, and the jitter branch adds up to a quarter of it on top without
re-clamping. -/
theorem retry_sleep_bounded (env : RTEnv) (fuel : Nat)
    (hj : ∀ i b, 0 ≤ b → 0 ≤ env.jitter i b ∧ 4 * env.jitter i b ≤ b)
    (hra : ∀ i r, env.responses i = NetOut.resp r → r.retryAfter = []) :
    ∀ d, (RTEvent.sleep d ∈ (rtRun env fuel rtInit).1 ∨
          RTEvent.sleepInterrupted d ∈ (rtRun env fuel rtInit).1) →
      d ≤ 75 * nsPerSecond := by
  intro d hd
  refine rtRun_sleep_bound env hj hra fuel rtInit ?_ ?_ d hd
  · simp [rtInit, rtInitialBackoff, nsPerSecond]
  · simp [rtInit, rtInitialBackoff, rtMaxBackoff, nsPerSecond]

/-- C3 amended-theorem witness: the bound applied to the zero-jitter run, whose
first sleep is exactly the 1s initial backoff. -/
theorem retry_sleep_bounded_witness : (1 * nsPerSecond : Int) ≤ 75 * nsPerSecond :=
  retry_sleep_bounded envZeroJitter 2
    (by
      intro i b hb
      refine ⟨le_refl 0, ?_⟩
      simpa [envZeroJitter] using hb)
    (by
      intro i r h
      have : r = { status := 429, retryAfter := [] } := by
        have h2 := h
        simp only [envZeroJitter] at h2
        injection h2 with h3
        exact h3.symm
      rw [this])
    (1 * nsPerSecond) (Or.inl (by decide))

/-- A run of the poll loop in which every attempt is indecisive ends in the
exhausted error for the natural key, after polling once and sleeping once per
attempt. -/
theorem resolveGo_indecisive (polls : Nat → PollErr ⊕ List RuleObj) (name s t : Str) :
    ∀ attempts lastErr,
      (∀ i ∈ attempts, pollIndecisive name s t (polls i)) →
      (∃ le, (resolveGo polls name s t attempts lastErr).2 =
          Sum.inl (RuleIdErr.exhausted name s t le))
      ∧ (resolveGo polls name s t attempts lastErr).1.countP isPollEvent = attempts.length
      ∧ (resolveGo polls name s t attempts lastErr).1.countP isSleepEvent = attempts.length := by
  intro attempts
  induction attempts with
  | nil =>
    intro lastErr _
    exact ⟨⟨lastErr, rfl⟩, rfl, rfl⟩
  | cons i rest ih =>
    intro lastErr h
    have hi := h i (List.mem_cons_self _ _)
    obtain ⟨⟨le1, hres1⟩, hc11, hc12⟩ :=
      ih (some PollErr.notFoundYet) (fun j hj => h j (List.mem_cons_of_mem _ hj))
    rcases hp : polls i with e | rules
    · obtain ⟨⟨le, hres⟩, hc1, hc2⟩ :=
        ih (some e) (fun j hj => h j (List.mem_cons_of_mem _ hj))
      simp only [resolveGo, hp]
      refine ⟨⟨le, hres⟩, ?_, ?_⟩
      · simp [List.countP_cons, isPollEvent, isSleepEvent, hc1]
      · simp [List.countP_cons, isPollEvent, isSleepEvent, hc2]
    · have hm : matchingIds name s t rules = [] := by
        rw [hp] at hi
        simpa [pollIndecisive] using hi
      simp only [resolveGo, hp, hm]
      refine ⟨⟨le1, hres1⟩, ?_, ?_⟩
      · simp [List.countP_cons, isPollEvent, isSleepEvent, hc11]
      · simp [List.countP_cons, isPollEvent, isSleepEvent, hc12]

/-- If every attempt before `j` is indecisive and attempt `j` returns two or
more matches, the poll loop stops at `j` with the ambiguous-count error. -/
theorem resolveGo_first_ambiguous (polls : Nat → PollErr ⊕ List RuleObj) (name s t : Str) :
    ∀ pre j rest lastErr rules,
      (∀ i ∈ pre, pollIndecisive name s t (polls i)) →
      polls j = Sum.inr rules →
      2 ≤ (matchingIds name s t rules).length →
      (resolveGo polls name s t (pre ++ j :: rest) lastErr).2 =
        Sum.inl (RuleIdErr.ambiguous (matchingIds name s t rules).length name s t) := by
  intro pre
  induction pre with
  | nil =>
    intro j rest lastErr rules _ hj hlen
    simp only [List.nil_append, resolveGo, hj]
    rcases hm : matchingIds name s t rules with _ | ⟨a, l⟩
    · rw [hm] at hlen
      simp at hlen
    · rcases l with _ | ⟨b, l2⟩
      · rw [hm] at hlen
        simp at hlen
      · rfl
  | cons i pre2 ih =>
    intro j rest lastErr rules hind hj hlen
    have hi := hind i (List.mem_cons_self _ _)
    have hind2 : ∀ x ∈ pre2, pollIndecisive name s t (polls x) :=
      fun x hx => hind x (List.mem_cons_of_mem _ hx)
    rcases hp : polls i with e | rls
    · simp only [List.cons_append, resolveGo, hp]
      exact ih j rest (some e) rules hind2 hj hlen
    · have hm : matchingIds name s t rls = [] := by
        rw [hp] at hi
        simpa [pollIndecisive] using hi
      simp only [List.cons_append, resolveGo, hp, hm]
      exact ih j rest (some PollErr.notFoundYet) rules hind2 hj hlen

/-- C7: when the create response carries no usable id, the create-ID resolver
never returns an id in the ambiguous case — it fails with an error carrying
the match count and the natural key as soon as the first decisive poll returns
two or more matches — and with zero matches throughout it polls all 5 attempts
before failing with a terminal error naming the natural key. -/
theorem propagationRuleIDFromCreateResponse_spec
    (idField : Option Str) (polls : Nat → PollErr ⊕ List RuleObj) (name s t : Str)
    (hNoId : idField = none ∨ idField = some []) :
    ((∀ i, i < 5 → pollIndecisive name s t (polls i)) →
      (∃ le, (propagationRuleIDFromCreateResponse (Sum.inr idField) polls name s t).2 =
          Sum.inl (RuleIdErr.exhausted name s t le))
      ∧ (propagationRuleIDFromCreateResponse
          (Sum.inr idField) polls name s t).1.countP isPollEvent = 5)
  ∧ (∀ j rules, j < 5 → (∀ i, i < j → pollIndecisive name s t (polls i)) →
      polls j = Sum.inr rules → 2 ≤ (matchingIds name s t rules).length →
      (propagationRuleIDFromCreateResponse (Sum.inr idField) polls name s t).2 =
        Sum.inl (RuleIdErr.ambiguous (matchingIds name s t rules).length name s t)) := by
  have hbody : propagationRuleIDFromCreateResponse (Sum.inr idField) polls name s t =
      resolveGo polls name s t [0, 1, 2, 3, 4] none := by
    rcases hNoId with rfl | rfl
    · rfl
    · simp [propagationRuleIDFromCreateResponse]
  constructor
  · intro hall
    rw [hbody]
    have h := resolveGo_indecisive polls name s t [0, 1, 2, 3, 4] none
      (by
        intro i hi
        apply hall i
        simp only [List.mem_cons, List.not_mem_nil, or_false] at hi
        rcases hi with rfl | rfl | rfl | rfl | rfl <;> omega)
    exact ⟨h.1, h.2.1⟩
  · intro j rules hj5 hpre hpj hlen
    rw [hbody]
    interval_cases j
    · exact resolveGo_first_ambiguous polls name s t [] 0 [1, 2, 3, 4] none rules
        (by intro i hi; simp at hi) hpj hlen
    · exact resolveGo_first_ambiguous polls name s t [0] 1 [2, 3, 4] none rules
        (by intro i hi; simp only [List.mem_singleton] at hi; subst hi; exact hpre 0 (by omega))
        hpj hlen
    · exact resolveGo_first_ambiguous polls name s t [0, 1] 2 [3, 4] none rules
        (by
          intro i hi
          simp only [List.mem_cons, List.not_mem_nil, or_false] at hi
          rcases hi with rfl | rfl <;> exact hpre _ (by omega))
        hpj hlen
    · exact resolveGo_first_ambiguous polls name s t [0, 1, 2] 3 [4] none rules
        (by
          intro i hi
          simp only [List.mem_cons, List.not_mem_nil, or_false] at hi
          rcases hi with rfl | rfl | rfl <;> exact hpre _ (by omega))
        hpj hlen
    · exact resolveGo_first_ambiguous polls name s t [0, 1, 2, 3] 4 [] none rules
        (by
          intro i hi
          simp only [List.mem_cons, List.not_mem_nil, or_false] at hi
          rcases hi with rfl | rfl | rfl | rfl <;> exact hpre _ (by omega))
        hpj hlen

/-- C7 witness: at the concrete ambiguous poll schedule the resolver returns
the count-2 error for natural key "r". -/
theorem propagationRuleIDFromCreateResponse_spec_witness :
    (propagationRuleIDFromCreateResponse (Sum.inr none) pollsAmbig (str "r") [] []).2 =
      Sum.inl (RuleIdErr.ambiguous 2 (str "r") [] []) := by
  have h := (propagationRuleIDFromCreateResponse_spec none pollsAmbig (str "r") [] []
      (Or.inl rfl)).2 2 rulesAmbig (by omega)
    (by
      intro i hi
      interval_cases i
      · show pollIndecisive (str "r") [] [] (pollsAmbig 0)
        simp [pollsAmbig, pollIndecisive, matchingIds]
      · show pollIndecisive (str "r") [] [] (pollsAmbig 1)
        simp [pollsAmbig, pollIndecisive, matchingIds])
    (by simp [pollsAmbig])
    (by decide)
  simpa using h

/-- An interrupted sleep in the retry transport is terminal: the run returns
the context's cancellation error at once, the interrupted sleep being the very
last event. -/
theorem rtRun_interrupted_terminal (env : RTEnv) :
    ∀ fuel s d, RTEvent.sleepInterrupted d ∈ (rtRun env fuel s).1 →
      (rtRun env fuel s).2 = some RTResult.cancelled
      ∧ (rtRun env fuel s).1.getLast? = some (RTEvent.sleepInterrupted d) := by
  intro fuel
  induction fuel with
  | zero =>
    intro s d hd
    simp [rtRun] at hd
  | succ n ih =>
    intro s d hd
    rcases hresp : env.responses s.attempt with _ | r
    · simp only [rtRun, rtStep, hresp] at hd
      simp at hd
    · simp only [rtRun, rtStep, hresp] at hd ⊢
      by_cases hretry : retryTransport_shouldRetry r.status = true
      · simp only [hretry, not_true_eq_false, if_false] at hd ⊢
        by_cases hdl : s.elapsed > rtMaxRetryTimeout
        · simp only [hdl, if_true] at hd
          simp at hd
        · simp only [hdl, if_false] at hd ⊢
          by_cases hcan : env.cancelDuringSleep s.attempt = true
          · simp only [hcan, if_true] at hd ⊢
            simp only [List.mem_cons, List.not_mem_nil, or_false] at hd
            rcases hd with h | h
            · simp at h
            · simp only [RTEvent.sleepInterrupted.injEq] at h
              rw [h]
              refine ⟨?_, ?_⟩ <;> trivial
          · simp only [Bool.not_eq_true] at hcan
            simp only [hcan, Bool.false_eq_true, if_false] at hd ⊢
            simp only [List.mem_append, List.mem_cons, List.not_mem_nil, or_false] at hd
            rcases hd with (h | h) | h
            · simp at h
            · simp at h
            · obtain ⟨h1, h2⟩ := ih _ d h
              refine ⟨h1, ?_⟩
              rw [List.getLast?_append, h2]
              rfl
      · simp only [Bool.not_eq_true] at hretry
        simp only [hretry, Bool.false_eq_true, not_false_eq_true, if_true] at hd
        simp at hd

/-- C9 counterexample: with the caller's context cancelled throughout (every
list poll fails with the context's error), the create-ID resolver still
performs all five poll sleeps — including the first 300ms one — and returns
its exhausted-poll error, not a cancellation error: its `time.Sleep` delay is
not cancellable. -/
theorem resolver_sleep_not_cancellable_cex :
    (propagationRuleIDFromCreateResponse (Sum.inr none)
        (fun _ => Sum.inl PollErr.ctxCanceled) (str "name") [] []).2 =
      Sum.inl (RuleIdErr.exhausted (str "name") [] [] (some PollErr.ctxCanceled))
    ∧ (propagationRuleIDFromCreateResponse (Sum.inr none)
        (fun _ => Sum.inl PollErr.ctxCanceled) (str "name") [] []).1.countP isSleepEvent = 5
    ∧ ResolveEvent.sleepMs 300 ∈ (propagationRuleIDFromCreateResponse (Sum.inr none)
        (fun _ => Sum.inl PollErr.ctxCanceled) (str "name") [] []).1 := by
  decide

/-- C9 amended: only the retry-transport sleep is cancellable — a context
cancelled during that sleep makes `RoundTrip` return the cancellation error
immediately, the interrupted sleep being its last action — while the create-ID
resolver's poll delay is a plain `time.Sleep`: under a context cancelled for
the whole run it still completes all five sleeps and returns the
exhausted-poll error instead of a cancellation error. -/
theorem suspension_points_cancellability :
    (∀ env fuel s d, RTEvent.sleepInterrupted d ∈ (rtRun env fuel s).1 →
      (rtRun env fuel s).2 = some RTResult.cancelled
      ∧ (rtRun env fuel s).1.getLast? = some (RTEvent.sleepInterrupted d))
  ∧ (∀ name s t, (propagationRuleIDFromCreateResponse (Sum.inr none)
        (fun _ => Sum.inl PollErr.ctxCanceled) name s t).2 =
          Sum.inl (RuleIdErr.exhausted name s t (some PollErr.ctxCanceled))
      ∧ (propagationRuleIDFromCreateResponse (Sum.inr none)
          (fun _ => Sum.inl PollErr.ctxCanceled) name s t).1.countP isSleepEvent = 5) :=
  ⟨fun env fuel s d hd => rtRun_interrupted_terminal env fuel s d hd,
   fun _ _ _ => ⟨rfl, rfl⟩⟩

/-- C9 witness: the run cancelled during its first sleep returns the
cancellation result with the interrupted 1s sleep as its last event. -/
theorem suspension_points_cancellability_witness :
    (rtRun envCancelFirstSleep 2 rtInit).2 = some RTResult.cancelled
    ∧ (rtRun envCancelFirstSleep 2 rtInit).1.getLast? =
        some (RTEvent.sleepInterrupted (1 * nsPerSecond)) :=
  suspension_points_cancellability.1 envCancelFirstSleep 2 rtInit (1 * nsPerSecond) (by decide)

/-- Every event of the bulk-remove phase is a remove call. -/
theorem ghRemovePhase_events (toRemove : List Str) (o : GhOutcome) :
    ∀ e ∈ (ghRemovePhase toRemove o).1, ∃ vs, e = SyncEvent.removeCall vs := by
  intro e he
  rcases o with msg | status <;> simp only [ghRemovePhase] at he <;> split_ifs at he <;>
    simp at he <;> exact ⟨toRemove, he⟩

/-- The member sync's trace is an add-call segment followed by a remove-call
segment. -/
theorem syncEnterpriseTeamMembers_order (existingResult : Str ⊕ List Str) (desired : List Str)
    (addOutcome removeOutcome : GhOutcome) :
    ∃ t1 t2, (syncEnterpriseTeamMembers existingResult desired addOutcome removeOutcome).1 =
        t1 ++ t2
      ∧ (∀ e ∈ t1, ∃ vs, e = SyncEvent.addCall vs)
      ∧ (∀ e ∈ t2, ∃ vs, e = SyncEvent.removeCall vs) := by
  rcases existingResult with msg | existing
  · exact ⟨[], [], rfl, by simp, by simp⟩
  · simp only [syncEnterpriseTeamMembers]
    by_cases hlen : (diffCaseInsensitive (normalizeStrings desired) existing).1.length > 0
    · simp only [hlen, if_true]
      rcases addOutcome with amsg | astatus
      · exact ⟨[SyncEvent.addCall (diffCaseInsensitive (normalizeStrings desired) existing).1],
          [], rfl, by simp, by simp⟩
      · by_cases hst : astatus ≥ 300
        · simp only [hst, if_true]
          exact ⟨[SyncEvent.addCall (diffCaseInsensitive (normalizeStrings desired) existing).1],
            [], rfl, by simp, by simp⟩
        · simp only [hst, if_false]
          refine ⟨[SyncEvent.addCall (diffCaseInsensitive (normalizeStrings desired) existing).1],
            (ghRemovePhase (diffCaseInsensitive (normalizeStrings desired) existing).2
              removeOutcome).1, rfl, by simp, ?_⟩
          exact ghRemovePhase_events _ _
    · simp only [hlen, if_false]
      exact ⟨[], (ghRemovePhase (diffCaseInsensitive (normalizeStrings desired) existing).2
        removeOutcome).1, rfl, by simp, ghRemovePhase_events _ _⟩

/-- The organization sync's trace is an add-call segment followed by a
remove-call segment. -/
theorem syncEnterpriseTeamOrganizations_order (existingResult : Str ⊕ List Str)
    (desired : List Str) (addOutcome removeOutcome : GhOutcome) :
    ∃ t1 t2, (syncEnterpriseTeamOrganizations existingResult desired addOutcome removeOutcome).1 =
        t1 ++ t2
      ∧ (∀ e ∈ t1, ∃ vs, e = SyncEvent.addCall vs)
      ∧ (∀ e ∈ t2, ∃ vs, e = SyncEvent.removeCall vs) := by
  rcases existingResult with msg | existing
  · exact ⟨[], [], rfl, by simp, by simp⟩
  · simp only [syncEnterpriseTeamOrganizations]
    by_cases hlen : (diffCaseInsensitive (normalizeStrings desired) existing).1.length > 0
    · simp only [hlen, if_true]
      rcases addOutcome with amsg | astatus
      · exact ⟨[SyncEvent.addCall (diffCaseInsensitive (normalizeStrings desired) existing).1],
          [], rfl, by simp, by simp⟩
      · by_cases hst : astatus ≥ 300
        · simp only [hst, if_true]
          exact ⟨[SyncEvent.addCall (diffCaseInsensitive (normalizeStrings desired) existing).1],
            [], rfl, by simp, by simp⟩
        · simp only [hst, if_false]
          refine ⟨[SyncEvent.addCall (diffCaseInsensitive (normalizeStrings desired) existing).1],
            (ghRemovePhase (diffCaseInsensitive (normalizeStrings desired) existing).2
              removeOutcome).1, rfl, by simp, ?_⟩
          exact ghRemovePhase_events _ _
    · simp only [hlen, if_false]
      exact ⟨[], (ghRemovePhase (diffCaseInsensitive (normalizeStrings desired) existing).2
        removeOutcome).1, rfl, by simp, ghRemovePhase_events _ _⟩

/-- Every event of the mapping deletion loop is a delete call. -/
theorem ensureDeleteLoop_events (dk : List (Str × MappingModel)) (del : Str → Option Str) :
    ∀ l, ∀ e ∈ (ensureDeleteLoop dk del l).1, ∃ i, e = EnsureEvent.deleteCall i := by
  intro l
  induction l with
  | nil => intro e he; simp [ensureDeleteLoop] at he
  | cons kv rest ih =>
    intro e he
    rcases kv with ⟨key, m⟩
    simp only [ensureDeleteLoop] at he
    split_ifs at he with h1 h2
    · exact ih e he
    · exact ih e he
    · rcases hdel : del m.id with _ | msg <;> simp only [hdel] at he
      · simp only [List.mem_cons] at he
        rcases he with h | h
        · exact ⟨m.id, h⟩
        · exact ih e h
      · simp only [List.mem_singleton] at he
        exact ⟨m.id, he⟩

/-- Every event of the create fallback loop is a create call. -/
theorem createFallbackLoop_events (co : Str → Str → CreateOut) (key : Str)
    (origCfg : Option MgmtConfig) :
    ∀ hs cur, ∀ e ∈ (createFallbackLoop co key origCfg hs cur).1,
      ∃ h k, e = EnsureEvent.createCall h k := by
  intro hs
  induction hs with
  | nil => intro cur e he; simp [createFallbackLoop] at he
  | cons hostname rest ih =>
    intro cur e he
    rcases hclone : cloneManagementClientWithBaseHostname origCfg hostname with msg | altCfg <;>
      simp only [createFallbackLoop, hclone] at he
    · exact ih cur e he
    · rcases herr : (co hostname key).err with _ | e2 <;> simp only [herr] at he
      · simp only [List.mem_singleton] at he
        exact ⟨hostname, key, he⟩
      · split_ifs at he with hw
        · simp only [List.mem_cons] at he
          rcases he with h | h
          · exact ⟨hostname, key, h⟩
          · exact ih _ e h
        · simp only [List.mem_singleton] at he
          exact ⟨hostname, key, he⟩

/-- Every event of the mapping creation loop is a create call. -/
theorem ensureCreateLoop_events (ex : List (Str × ApiMapping)) (co : Str → Str → CreateOut) :
    ∀ l cfg, ∀ e ∈ (ensureCreateLoop ex co cfg l).1, ∃ h k, e = EnsureEvent.createCall h k := by
  intro l
  induction l with
  | nil => intro cfg e he; simp [ensureCreateLoop] at he
  | cons kv rest ih =>
    intro cfg e he
    rcases kv with ⟨key, m⟩
    simp only [ensureCreateLoop] at he
    split_ifs at he with h1
    · exact ih cfg e he
    · rcases herr : (co (currentPingOneHostname cfg) key).err with _ | e2 <;>
        simp only [herr] at he
      · simp only [List.mem_cons] at he
        rcases he with h | h
        · exact ⟨currentPingOneHostname cfg, key, h⟩
        · exact ih cfg e h
      · split_ifs at he with hw
        · rcases hfb : (createFallbackLoop co key cfg (pingOneFallbackBaseHostnames cfg)
              (some e2, (co (currentPingOneHostname cfg) key).resp)).2.1.1 with _ | e3 <;>
            simp only [hfb] at he
          · simp only [List.mem_cons, List.mem_append] at he
            rcases he with (h | h) | h
            · exact ⟨currentPingOneHostname cfg, key, h⟩
            · exact createFallbackLoop_events co key cfg _ _ e h
            · exact ih _ e h
          · simp only [List.mem_cons] at he
            rcases he with h | h
            · exact ⟨currentPingOneHostname cfg, key, h⟩
            · exact createFallbackLoop_events co key cfg _ _ e h
        · simp only [List.mem_singleton] at he
          exact ⟨currentPingOneHostname cfg, key, he⟩

/-- The mapping reconciler's trace is a delete segment followed by a create
segment. -/
theorem ensurePropagationRuleMappings_order (apiClient : Option MgmtConfig)
    (listResult : Str ⊕ List ApiMapping) (del : Str → Option Str)
    (createOutcome : Str → Str → CreateOut) (prior desired : List MappingModel) :
    ∃ t1 t2, (ensurePropagationRuleMappings apiClient listResult del createOutcome
        prior desired).1 = t1 ++ t2
      ∧ (∀ e ∈ t1, ∃ i, e = EnsureEvent.deleteCall i)
      ∧ (∀ e ∈ t2, ∃ h k, e = EnsureEvent.createCall h k) := by
  rcases listResult with msg | existing
  · exact ⟨[], [], rfl, by simp, by simp⟩
  · simp only [ensurePropagationRuleMappings]
    rcases hdel : (ensureDeleteLoop
        (buildKeyedLW (fun m => mappingKey m.sourceAttribute m.targetAttribute m.expression)
          desired)
        del (buildKeyedLW mappingKeyFromAPI existing)).2 with _ | e <;>
      simp only [hdel]
    · exact ⟨_, _, rfl, ensureDeleteLoop_events _ _ _, ensureCreateLoop_events _ _ _ _⟩
    · exact ⟨_, [], (List.append_nil _).symm, ensureDeleteLoop_events _ _ _, by simp⟩

/-- C2 counterexample: with one member to add and one to remove (both bulk
calls succeeding), the member sync issues the bulk ADD call first and the bulk
remove call after it — an addition is sent before the removal, contradicting
the removals-first claim. -/
theorem syncEnterpriseTeamMembers_add_first_cex :
    syncEnterpriseTeamMembers (Sum.inr [str "bob"]) [str "alice"]
      (GhOutcome.resp 200) (GhOutcome.resp 200) =
      ([SyncEvent.addCall [str "alice"], SyncEvent.removeCall [str "bob"]], none)
    ∧ (syncEnterpriseTeamMembers (Sum.inr [str "bob"]) [str "alice"]
        (GhOutcome.resp 200) (GhOutcome.resp 200)).1.head? =
      some (SyncEvent.addCall [str "alice"])
    ∧ SyncEvent.removeCall [str "bob"] ∈ (syncEnterpriseTeamMembers (Sum.inr [str "bob"])
        [str "alice"] (GhOutcome.resp 200) (GhOutcome.resp 200)).1 := by
  decide

/-- C2 amended: the ordering differs per reconciler — the rule-mapping
reconciler issues all removal (delete) calls before any addition (create)
call, while the team-member and team-organization reconcilers issue their
single bulk-addition call before their single bulk-removal call. -/
theorem reconcilers_call_order :
    (∀ existingResult desired addOutcome removeOutcome,
      ∃ t1 t2, (syncEnterpriseTeamMembers existingResult desired addOutcome removeOutcome).1 =
          t1 ++ t2
        ∧ (∀ e ∈ t1, ∃ vs, e = SyncEvent.addCall vs)
        ∧ (∀ e ∈ t2, ∃ vs, e = SyncEvent.removeCall vs))
  ∧ (∀ existingResult desired addOutcome removeOutcome,
      ∃ t1 t2, (syncEnterpriseTeamOrganizations existingResult desired
          addOutcome removeOutcome).1 = t1 ++ t2
        ∧ (∀ e ∈ t1, ∃ vs, e = SyncEvent.addCall vs)
        ∧ (∀ e ∈ t2, ∃ vs, e = SyncEvent.removeCall vs))
  ∧ (∀ apiClient listResult del createOutcome prior desired,
      ∃ t1 t2, (ensurePropagationRuleMappings apiClient listResult del createOutcome
          prior desired).1 = t1 ++ t2
        ∧ (∀ e ∈ t1, ∃ i, e = EnsureEvent.deleteCall i)
        ∧ (∀ e ∈ t2, ∃ h k, e = EnsureEvent.createCall h k)) :=
  ⟨syncEnterpriseTeamMembers_order, syncEnterpriseTeamOrganizations_order,
    ensurePropagationRuleMappings_order⟩

/-- C2 witness: the amended ordering instantiated on the concrete one-add
one-remove member sync. -/
theorem reconcilers_call_order_witness :
    ∃ t1 t2, (syncEnterpriseTeamMembers (Sum.inr [str "bob"]) [str "alice"]
        (GhOutcome.resp 200) (GhOutcome.resp 200)).1 = t1 ++ t2
      ∧ (∀ e ∈ t1, ∃ vs, e = SyncEvent.addCall vs)
      ∧ (∀ e ∈ t2, ∃ vs, e = SyncEvent.removeCall vs) :=
  reconcilers_call_order.1 (Sum.inr [str "bob"]) [str "alice"]
    (GhOutcome.resp 200) (GhOutcome.resp 200)

/-- C10: when a response has a body and `ReadAndRestoreResponseBody` returns
bytes `b` without error, the restored body reads back as exactly `b`, a second
call returns the same bytes (idempotence), and the wrong-region body sniffing
leaves the response with a body that still reads back as `b`. -/
theorem readAndRestoreResponseBody_idempotent (r : HttpRespS) (stream : BodyStream) (b : Str)
    (hbody : r.bodyS = some stream)
    (hfirst : (readAndRestoreResponseBody (some r)).1 = Sum.inr b) :
    (readAndRestoreResponseBody (some r)).2 =
        some { r with bodyS := some { readAllResult := Sum.inr b } }
    ∧ readAndRestoreResponseBody ((readAndRestoreResponseBody (some r)).2) =
        (Sum.inr b, some { r with bodyS := some { readAllResult := Sum.inr b } })
    ∧ (∀ err, (readAndRestoreResponseBody
        ((isBadAuthorizationHeaderErrorS err (some r)).2)).1 = Sum.inr b) := by
  have hread : stream.readAllResult = Sum.inr b := by
    rcases hs : stream.readAllResult with e | bytes
    · simp [readAndRestoreResponseBody, hbody, hs] at hfirst
    · simp only [readAndRestoreResponseBody, hbody, hs] at hfirst
      injection hfirst with h2
      rw [h2]
  have hrestored : (readAndRestoreResponseBody (some r)).2 =
      some { r with bodyS := some { readAllResult := Sum.inr b } } := by
    simp [readAndRestoreResponseBody, hbody, hread]
  refine ⟨hrestored, ?_, ?_⟩
  · rw [hrestored]
    simp [readAndRestoreResponseBody]
  · intro err
    rcases err with _ | e
    · simp [isBadAuthorizationHeaderErrorS, readAndRestoreResponseBody, hbody, hread]
    · by_cases hst : r.status = 403
      · simp [isBadAuthorizationHeaderErrorS, readAndRestoreResponseBody, hbody, hread, hst]
      · simp [isBadAuthorizationHeaderErrorS, readAndRestoreResponseBody, hbody, hread, hst]

/-- C10 witness: the theorem applied to a concrete 403 response whose body
yields "hello". -/
theorem readAndRestoreResponseBody_idempotent_witness :
    (readAndRestoreResponseBody
        (some (HttpRespS.mk 403 (some (BodyStream.mk (Sum.inr (str "hello"))))))).2 =
      some (HttpRespS.mk 403 (some (BodyStream.mk (Sum.inr (str "hello"))))) :=
  (readAndRestoreResponseBody_idempotent
      (HttpRespS.mk 403 (some (BodyStream.mk (Sum.inr (str "hello")))))
      (BodyStream.mk (Sum.inr (str "hello"))) (str "hello") rfl (by decide)).1
